import Mathlib

/-!
Verification of the pooltool event-based billiards engine against its
specification.  We shallowly embed the relevant source functions over the
real numbers: the iterative frictional ball-ball collision model
(`physics/resolve/ball_ball/frictional_mathavan/__init__.py`), the table
geometry constructors (`objects/table.py`), the module constants
(`constants.py`), and — modelled from the spec, since only its test is in
the source tree — the quartic root solver interface.
-/

open scoped Classical

/-! ## Vectors -/

/-- 3-vectors, as used for positions, velocities and angular velocities. -/
abbrev Vec3 : Type := ℝ × ℝ × ℝ

namespace Vec3

def dot (a b : Vec3) : ℝ := a.1 * b.1 + a.2.1 * b.2.1 + a.2.2 * b.2.2

def cross (a b : Vec3) : Vec3 :=
  (a.2.1 * b.2.2 - a.2.2 * b.2.1,
   a.2.2 * b.1 - a.1 * b.2.2,
   a.1 * b.2.1 - a.2.1 * b.1)

def sub (a b : Vec3) : Vec3 := (a.1 - b.1, a.2.1 - b.2.1, a.2.2 - b.2.2)

noncomputable def smul (c : ℝ) (a : Vec3) : Vec3 := (c * a.1, c * a.2.1, c * a.2.2)

noncomputable def div (a : Vec3) (c : ℝ) : Vec3 := (a.1 / c, a.2.1 / c, a.2.2 / c)

def add3 (a b c : Vec3) : Vec3 :=
  (a.1 + b.1 + c.1, a.2.1 + b.2.1 + c.2.1, a.2.2 + b.2.2 + c.2.2)

end Vec3

/-- `z_loc = array([0, 0, 1])` from the source. -/
def z_loc : Vec3 := (0, 0, 1)

/-! ## The frictional Mathavan ball-ball collision model

Embedding of `collide_balls` from
`src/pooltool/physics/resolve/ball_ball/frictional_mathavan/__init__.py`.
The local-frame loop state carries the two balls' local velocity and
angular-velocity components together with the accumulated normal work `W`
and the work `W_c` recorded at the end of the compression phase (`none`
while compression is still in progress; the loop bound `W_f` of the source
is the derived quantity `(1 + e_b^2) * W_c`, infinite while `W_c` is
unset). -/

structure LoopState where
  v_ix : ℝ
  v_iy : ℝ
  v_jx : ℝ
  v_jy : ℝ
  w_ix : ℝ
  w_iy : ℝ
  w_iz : ℝ
  w_jx : ℝ
  w_jy : ℝ
  w_jz : ℝ
  W : ℝ
  W_c : Option ℝ

/-- Parameters of `collide_balls` that stay fixed during the loop
(`deltaP` is resolved to a number before the loop starts). -/
structure CollideParams where
  R : ℝ
  M : ℝ
  u_s1 : ℝ
  u_s2 : ℝ
  u_b : ℝ
  e_b : ℝ
  deltaP : ℝ

/-- The separation velocity `v_ijy = v_jy - v_iy` along the line of centers. -/
def LoopState.v_ijy (s : LoopState) : ℝ := s.v_jy - s.v_iy

/-- The six impulse increments
`(deltaP_1, deltaP_2, deltaP_ix, deltaP_iy, deltaP_jx, deltaP_jy)`
computed at the top of each loop iteration of `collide_balls`
(lines 163-187 of the source). -/
noncomputable def impulses (p : CollideParams) (s : LoopState) :
    ℝ × ℝ × ℝ × ℝ × ℝ × ℝ :=
  let u_iR_x := s.v_ix + p.R * s.w_iy
  let u_iR_y := s.v_iy - p.R * s.w_ix
  let u_jR_x := s.v_jx + p.R * s.w_jy
  let u_jR_y := s.v_jy - p.R * s.w_jx
  let u_iR_xy_mag := Real.sqrt (u_iR_x ^ 2 + u_iR_y ^ 2)
  let u_jR_xy_mag := Real.sqrt (u_jR_x ^ 2 + u_jR_y ^ 2)
  let u_ijC_x := s.v_ix - s.v_jx - p.R * (s.w_iz + s.w_jz)
  let u_ijC_z := p.R * (s.w_ix + s.w_jx)
  let u_ijC_xz_mag := Real.sqrt (u_ijC_x ^ 2 + u_ijC_z ^ 2)
  if u_ijC_xz_mag < 1e-16 then (0, 0, 0, 0, 0, 0)
  else
    let deltaP_1 := -p.u_b * p.deltaP * u_ijC_x / u_ijC_xz_mag
    if |u_ijC_z| < 1e-16 then (deltaP_1, 0, 0, 0, 0, 0)
    else
      let deltaP_2 := -p.u_b * p.deltaP * u_ijC_z / u_ijC_xz_mag
      if deltaP_2 > 0 then
        if u_jR_xy_mag = 0 then (deltaP_1, deltaP_2, 0, 0, 0, 0)
        else
          (deltaP_1, deltaP_2, 0, 0,
           -p.u_s2 * (u_jR_x / u_jR_xy_mag) * deltaP_2,
           -p.u_s2 * (u_jR_y / u_jR_xy_mag) * deltaP_2)
      else
        if u_iR_xy_mag = 0 then (deltaP_1, deltaP_2, 0, 0, 0, 0)
        else
          (deltaP_1, deltaP_2,
           p.u_s1 * (u_iR_x / u_iR_xy_mag) * deltaP_2,
           p.u_s1 * (u_iR_y / u_iR_xy_mag) * deltaP_2, 0, 0)

/-- One iteration of the `while` loop body of `collide_balls`
(lines 163-228 of the source): apply the impulse increments to the
velocities and angular velocities, accumulate the normal work `W`, and
record `W_c` at the end of the compression phase (the first iteration
after which the separation velocity is strictly positive). -/
noncomputable def collideStep (p : CollideParams) (s : LoopState) : LoopState :=
  let d := impulses p s
  let deltaP_1 := d.1
  let deltaP_2 := d.2.1
  let deltaP_ix := d.2.2.1
  let deltaP_iy := d.2.2.2.1
  let deltaP_jx := d.2.2.2.2.1
  let deltaP_jy := d.2.2.2.2.2
  let C := 5 / (2 * p.M * p.R)
  let v_ix := s.v_ix + (deltaP_1 + deltaP_ix) / p.M
  let v_iy := s.v_iy + (-p.deltaP + deltaP_iy) / p.M
  let v_jx := s.v_jx + (-deltaP_1 + deltaP_jx) / p.M
  let v_jy := s.v_jy + (p.deltaP + deltaP_jy) / p.M
  let w_ix := s.w_ix + C * (deltaP_2 + deltaP_iy)
  let w_iy := s.w_iy + C * (-deltaP_ix)
  let w_iz := s.w_iz + C * (-deltaP_1)
  let w_jx := s.w_jx + C * (deltaP_2 + deltaP_jy)
  let w_jy := s.w_jy + C * (-deltaP_jx)
  let w_jz := s.w_jz + C * (-deltaP_1)
  let v_ijy0 := s.v_jy - s.v_iy
  let v_ijy1 := v_jy - v_iy
  let W1 := s.W + 1 / 2 * p.deltaP * |v_ijy0 + v_ijy1|
  let W_c1 := if s.W_c = none ∧ v_ijy1 > 0 then some W1 else s.W_c
  { v_ix := v_ix, v_iy := v_iy, v_jx := v_jx, v_jy := v_jy,
    w_ix := w_ix, w_iy := w_iy, w_iz := w_iz,
    w_jx := w_jx, w_jy := w_jy, w_jz := w_jz,
    W := W1, W_c := W_c1 }

/-- The `while` condition of `collide_balls`:
`v_ijy < 0 or W < W_f`, where `W_f` is `(1 + e_b^2) * W_c` once the
compression work `W_c` has been recorded and `inf` before that. -/
def loopCond (p : CollideParams) (s : LoopState) : Prop :=
  s.v_ijy < 0 ∨ (match s.W_c with
                 | none => True
                 | some wc => s.W < (1 + p.e_b ^ 2) * wc)

/-- Fuel-indexed evaluation of the `while` loop of `collide_balls`:
`none` means the loop has not finished within `fuel` condition checks.
The source loop has no iteration cap of its own. -/
noncomputable def loopFuel (p : CollideParams) : ℕ → LoopState → Option LoopState
  | 0, _ => none
  | n + 1, s => if loopCond p s then loopFuel p n (collideStep p s) else some s

/-! Embedding of `collide_balls` (lines 67-245 of the source), split into
its phases: build the local frame from the line of centers, transform the
kinematic inputs into it, resolve `deltaP`, run the iteration, and
transform the result back to the global frame. -/

/-- The local frame's y axis: the unit vector along the line of centers. -/
noncomputable def y_loc_of (r_i r_j : Vec3) : Vec3 :=
  Vec3.div (Vec3.sub r_j r_i)
    (Real.sqrt (Vec3.dot (Vec3.sub r_j r_i) (Vec3.sub r_j r_i)))

/-- The local frame's x axis, `cross(y_loc, z_loc)`. -/
noncomputable def x_loc_of (r_i r_j : Vec3) : Vec3 :=
  Vec3.cross (y_loc_of r_i r_j) z_loc

/-- The initial loop state of `collide_balls`: both balls' velocities and
angular velocities expressed in the local frame, no work accumulated,
compression phase in progress. -/
noncomputable def collideInitial (r_i v_i w_i r_j v_j w_j : Vec3) :
    LoopState :=
  { v_ix := Vec3.dot v_i (x_loc_of r_i r_j),
    v_iy := Vec3.dot v_i (y_loc_of r_i r_j),
    v_jx := Vec3.dot v_j (x_loc_of r_i r_j),
    v_jy := Vec3.dot v_j (y_loc_of r_i r_j),
    w_ix := Vec3.dot w_i (x_loc_of r_i r_j),
    w_iy := Vec3.dot w_i (y_loc_of r_i r_j),
    w_iz := Vec3.dot w_i z_loc,
    w_jx := Vec3.dot w_j (x_loc_of r_i r_j),
    w_jy := Vec3.dot w_j (y_loc_of r_i r_j),
    w_jz := Vec3.dot w_j z_loc,
    W := 0, W_c := none }

/-- The loop parameters of `collide_balls`; a `deltaP` that is not passed
explicitly is computed from equation 14 of the reference as
`0.5 * (1 + e_b) * M * |v_ijy| / N`. -/
noncomputable def collideParamsOf (R M u_s1 u_s2 u_b e_b : ℝ)
    (deltaP? : Option ℝ) (N : ℝ) (s0 : LoopState) : CollideParams :=
  { R := R, M := M, u_s1 := u_s1, u_s2 := u_s2, u_b := u_b, e_b := e_b,
    deltaP := match deltaP? with
              | none => 1 / 2 * (1 + e_b) * M * |s0.v_ijy| / N
              | some dp => dp }

/-- The final transformation of `collide_balls` back to the global frame:
`dot(G_T, v)` for each of the four returned vectors, with the local
z-component of each linear velocity equal to zero. -/
noncomputable def collideOutput (r_i r_j : Vec3) (s : LoopState) :
    Vec3 × Vec3 × Vec3 × Vec3 :=
  (Vec3.add3 (Vec3.smul s.v_ix (x_loc_of r_i r_j))
     (Vec3.smul s.v_iy (y_loc_of r_i r_j)) (Vec3.smul 0 z_loc),
   Vec3.add3 (Vec3.smul s.w_ix (x_loc_of r_i r_j))
     (Vec3.smul s.w_iy (y_loc_of r_i r_j)) (Vec3.smul s.w_iz z_loc),
   Vec3.add3 (Vec3.smul s.v_jx (x_loc_of r_i r_j))
     (Vec3.smul s.v_jy (y_loc_of r_i r_j)) (Vec3.smul 0 z_loc),
   Vec3.add3 (Vec3.smul s.w_jx (x_loc_of r_i r_j))
     (Vec3.smul s.w_jy (y_loc_of r_i r_j)) (Vec3.smul s.w_jz z_loc))

/-- Embedding of `collide_balls` itself.  `fuel` bounds the number of
loop-condition checks we are willing to evaluate; the source loop is
unbounded. -/
noncomputable def collide_balls (r_i v_i w_i r_j v_j w_j : Vec3)
    (R M u_s1 u_s2 u_b e_b : ℝ) (deltaP? : Option ℝ) (N : ℝ) (fuel : ℕ) :
    Option (Vec3 × Vec3 × Vec3 × Vec3) :=
  match loopFuel
      (collideParamsOf R M u_s1 u_s2 u_b e_b deltaP? N
        (collideInitial r_i v_i w_i r_j v_j w_j))
      fuel (collideInitial r_i v_i w_i r_j v_j w_j) with
  | none => none
  | some s => some (collideOutput r_i r_j s)

/-! ## Ball data model and the `FrictionalMathavan` resolver -/

/- Motion-phase constants from `src/pooltool/constants.py`. -/
namespace const

def stationary : ℕ := 0

def spinning : ℕ := 1

def sliding : ℕ := 2

def rolling : ℕ := 3

def pocketed : ℕ := 4

end const

/-- Physical parameters of a ball, as read by `FrictionalMathavan.solve`. -/
structure BallParams where
  R : ℝ
  m : ℝ
  u_s : ℝ
  u_b : ℝ
  e_b : ℝ

/-- Kinematic state of a ball: the `rvw` rows (position, velocity, angular
velocity) together with the motion-phase tag `s`. -/
structure BallState where
  r : Vec3
  v : Vec3
  w : Vec3
  s : ℕ

structure Ball where
  params : BallParams
  state : BallState

/-- Embedding of `FrictionalMathavan.solve` together with the
`_resolve_ball_ball` helper (lines 31-61 of the source): run
`collide_balls` on the two balls' kinematic states, write the returned x/y
velocity components and the full angular velocities back into the `rvw`
copies (positions and z-velocities are left as they were), and give both
balls a fresh state tagged `const.sliding`.  The interaction coefficients
are the averages of the two balls'; `fuel` bounds the loop evaluation. -/
noncomputable def FrictionalMathavan_solve (ball1 ball2 : Ball) (fuel : ℕ) :
    Option (Ball × Ball) :=
  match collide_balls ball1.state.r ball1.state.v ball1.state.w
      ball2.state.r ball2.state.v ball2.state.w
      ball1.params.R ball1.params.m ball1.params.u_s ball2.params.u_s
      ((ball1.params.u_b + ball2.params.u_b) / 2)
      ((ball1.params.e_b + ball2.params.e_b) / 2)
      none 1000 fuel with
  | none => none
  | some (v1, w1, v2, w2) =>
      some
        ({ params := ball1.params,
           state := { r := ball1.state.r,
                      v := (v1.1, v1.2.1, ball1.state.v.2.2),
                      w := w1, s := const.sliding } },
         { params := ball2.params,
           state := { r := ball2.state.r,
                      v := (v2.1, v2.2.1, ball2.state.v.2.2),
                      w := w2, s := const.sliding } })

/-- Translational plus rotational kinetic energy of one ball of mass `M`
and radius `R` (moment of inertia of a solid sphere, `2/5 * M * R^2`). -/
noncomputable def ballEnergy (M R : ℝ) (v w : Vec3) : ℝ :=
  1 / 2 * M * Vec3.dot v v + 1 / 2 * (2 / 5 * M * R ^ 2) * Vec3.dot w w

/-! ## Table geometry: cushion segments and table parameter defaults -/

/-- Modelled from the spec: `pooltool.utils.unit_vector_fast`, used by the
cushion constructor for "a precomputed unit normal", is not under `src/`;
per the spec's words it normalizes a vector to unit length. -/
noncomputable def unit_vector_fast (v : Vec3) : Vec3 :=
  Vec3.div v (Real.sqrt (Vec3.dot v v))

structure LinearCushionSegment where
  id : String
  p1 : Vec3
  p2 : Vec3
  height : ℝ
  lx : ℝ
  ly : ℝ
  l0 : ℝ
  normal : Vec3
  direction : ℤ

/-- Embedding of `LinearCushionSegment.__init__` (lines 621-670 of
`src/pooltool/objects/table.py`).  A `ValueError` for mismatched endpoint
heights and a `ConfigError` for a collision-direction flag outside
`0, 1, 2` are both rendered as `Except.error`; on success the fully
initialized segment is returned. -/
noncomputable def LinearCushionSegment_init (cushion_id : String) (p1 p2 : Vec3)
    (direction : ℤ) : Except String LinearCushionSegment :=
  if p1.2.2 ≠ p2.2.2 then
    Except.error "points p1 and p2 with different cushion heights"
  else
    let line : ℝ × ℝ × ℝ :=
      if p2.1 - p1.1 = 0 then (1, 0, -p1.1)
      else (-(p2.2.1 - p1.2.1) / (p2.1 - p1.1), 1,
            (p2.2.1 - p1.2.1) / (p2.1 - p1.1) * p1.1 - p1.2.1)
    let normal := unit_vector_fast (line.1, line.2.1, 0)
    if ¬(direction = 0 ∨ direction = 1 ∨ direction = 2) then
      Except.error "direction must be 0, 1, or 2."
    else
      Except.ok
        { id := cushion_id, p1 := p1, p2 := p2, height := p1.2.2,
          lx := line.1, ly := line.2.1, l0 := line.2.2, normal := normal,
          direction := direction }

/- Module-level table constants from `src/pooltool/constants.py`,
as exact rationals. -/
namespace tconst

def R : ℚ := 0.028575

def table_length : ℚ := 1.9812

def table_width : ℚ := 1.9812 / 2

def table_height : ℚ := 0.708

def lights_height : ℚ := 1.99

def cushion_width : ℚ := 2 * 2.54 / 100

def cushion_height : ℚ := 0.64 * 2 * R

def corner_pocket_width : ℚ := 0.118

def corner_pocket_angle : ℚ := 5.3

def corner_pocket_depth : ℚ := 0.0398

def corner_pocket_radius : ℚ := 0.124 / 2

def corner_jaw_radius : ℚ := 0.0419 / 2

def side_pocket_width : ℚ := 0.137

def side_pocket_angle : ℚ := 7.14

def side_pocket_depth : ℚ := 0.00437

def side_pocket_radius : ℚ := 0.129 / 2

def side_jaw_radius : ℚ := 0.0159 / 2

end tconst

/-- Python's `x or default` as applied to an optionally-passed numeric
parameter: `None` and falsy `0` both select the default. -/
def pyOr (x : Option ℚ) (d : ℚ) : ℚ :=
  match x with
  | none => d
  | some v => if v = 0 then d else v

/-- The numeric parameters `PocketTable.__init__` stores on `self`. -/
structure PocketTableParams where
  w : ℚ
  l : ℚ
  cushion_width : ℚ
  cushion_height : ℚ
  corner_pocket_width : ℚ
  corner_pocket_angle : ℚ
  corner_pocket_depth : ℚ
  corner_pocket_radius : ℚ
  corner_jaw_radius : ℚ
  side_pocket_width : ℚ
  side_pocket_angle : ℚ
  side_pocket_depth : ℚ
  side_pocket_radius : ℚ
  side_jaw_radius : ℚ
  height : ℚ
  lights_height : ℚ
  deriving DecidableEq

/-- Embedding of the parameter-defaulting part of `PocketTable.__init__`
(lines 221-236 of `src/pooltool/objects/table.py`), for the default
`model_name="none"` path: every numeric parameter is combined with its
module default using Python's truthiness operator `or`.  The subsequent
geometry construction (cushion segments, pockets) reads only these
fields. -/
def PocketTable_init_params (w l cushion_width cushion_height
    corner_pocket_width corner_pocket_angle corner_pocket_depth
    corner_pocket_radius corner_jaw_radius side_pocket_width
    side_pocket_angle side_pocket_depth side_pocket_radius side_jaw_radius
    height lights_height : Option ℚ) : PocketTableParams :=
  { w := pyOr w tconst.table_width,
    l := pyOr l tconst.table_length,
    cushion_width := pyOr cushion_width tconst.cushion_width,
    cushion_height := pyOr cushion_height tconst.cushion_height,
    corner_pocket_width := pyOr corner_pocket_width tconst.corner_pocket_width,
    corner_pocket_angle := pyOr corner_pocket_angle tconst.corner_pocket_angle,
    corner_pocket_depth := pyOr corner_pocket_depth tconst.corner_pocket_depth,
    corner_pocket_radius := pyOr corner_pocket_radius tconst.corner_pocket_radius,
    corner_jaw_radius := pyOr corner_jaw_radius tconst.corner_jaw_radius,
    side_pocket_width := pyOr side_pocket_width tconst.side_pocket_width,
    side_pocket_angle := pyOr side_pocket_angle tconst.side_pocket_angle,
    side_pocket_depth := pyOr side_pocket_depth tconst.side_pocket_depth,
    side_pocket_radius := pyOr side_pocket_radius tconst.side_pocket_radius,
    side_jaw_radius := pyOr side_jaw_radius tconst.side_jaw_radius,
    height := pyOr height tconst.table_height,
    lights_height := pyOr lights_height tconst.lights_height }

/-- The numeric parameters `BilliardTable.__init__` stores on `self`. -/
structure BilliardTableParams where
  w : ℚ
  l : ℚ
  cushion_width : ℚ
  cushion_height : ℚ
  height : ℚ
  lights_height : ℚ
  deriving DecidableEq

/-- Embedding of the parameter-defaulting part of `BilliardTable.__init__`
(lines 545-550 of `src/pooltool/objects/table.py`), for the default
`model_name="none"` path. -/
def BilliardTable_init_params (w l cushion_width cushion_height height
    lights_height : Option ℚ) : BilliardTableParams :=
  { w := pyOr w tconst.table_width,
    l := pyOr l tconst.table_length,
    cushion_width := pyOr cushion_width tconst.cushion_width,
    cushion_height := pyOr cushion_height tconst.cushion_height,
    height := pyOr height tconst.table_height,
    lights_height := pyOr lights_height tconst.lights_height }

/-! ## Quartic root solving (spec-modelled)

The quartic solver package `pooltool.math.roots` / `pooltool.math.quartic`
is not under `src/`; only its regression test
(`src/pooltool/math/roots/test_quartic.py`) is.  Following the spec's
words, each solver strategy returns, per coefficient row, the minimum
non-negative real root of the quartic, and the analytic solver's output on
the degenerate zero-trailing-coefficient input is fixed to be exactly
zero. -/

/-- The quartic polynomial `a*x^4 + b*x^3 + c*x^2 + d*x + e`. -/
def quarticEval (a b c d e x : ℝ) : ℝ :=
  a * x ^ 4 + b * x ^ 3 + c * x ^ 2 + d * x + e

/-- `r` is the minimum non-negative real root of the quartic. -/
def IsMinNonnegRoot (a b c d e r : ℝ) : Prop :=
  0 ≤ r ∧ quarticEval a b c d e r = 0 ∧
    ∀ s, 0 ≤ s → quarticEval a b c d e s = 0 → r ≤ s

/-- Modelled from the spec: the `Numeric` strategy of the root solver
(absent from `src/`) returns "for each row, the minimum non-negative real
root (or a sentinel)"; we model its per-row output relationally, as the
returned value being the minimum non-negative real root. -/
def numericMinRoot (a b c d e r : ℝ) : Prop := IsMinNonnegRoot a b c d e r

/-- Modelled from the spec: the `Hybrid` strategy dispatches reducible
cases to closed-form solvers and falls back to `Numeric`; its per-row
contract is the same, the minimum non-negative real root. -/
def hybridMinRoot (a b c d e r : ℝ) : Prop := IsMinNonnegRoot a b c d e r

/-- Modelled from the spec: the analytic quartic solver
`pooltool.math.quartic.solve` is absent from `src/` (only its test is
present).  The spec fixes its behavior in the degenerate configuration
where the trailing coefficient is exactly zero: "the four roots must
evaluate to exactly zero, not near-zero noise".  For a nonzero trailing
coefficient the spec does not pin down the closed-form root values, so we
leave that branch unmodelled (`none`). -/
noncomputable def quartic_solve (a b c d e : ℝ) : Option (Fin 4 → ℂ) :=
  if e = 0 then some (fun _ => 0) else none

/-! ## The ball-exchange involution (for the symmetry claim)

Exchanging the two balls of `collide_balls` negates the line of centers,
hence flips the local x and y axes; on local loop states this acts by
exchanging the i/j components and negating the x/y (but not z)
entries. -/

def swapState (s : LoopState) : LoopState :=
  { v_ix := -s.v_jx, v_iy := -s.v_jy, v_jx := -s.v_ix, v_jy := -s.v_iy,
    w_ix := -s.w_jx, w_iy := -s.w_jy, w_iz := s.w_jz,
    w_jx := -s.w_ix, w_jy := -s.w_iy, w_jz := s.w_iz,
    W := s.W, W_c := s.W_c }

/-- Exchanging the balls also exchanges their two ball-table sliding
friction coefficients. -/
def swapParams (p : CollideParams) : CollideParams :=
  { R := p.R, M := p.M, u_s1 := p.u_s2, u_s2 := p.u_s1, u_b := p.u_b,
    e_b := p.e_b, deltaP := p.deltaP }

/-- The ball-exchange action on the result quadruple of `collide_balls`. -/
def swapResult (o : Vec3 × Vec3 × Vec3 × Vec3) : Vec3 × Vec3 × Vec3 × Vec3 :=
  (o.2.2.1, o.2.2.2, o.1, o.2.1)

/-! ### Generic facts about the loop evaluation -/

/-- A successful `loopFuel` run is the first iterate at which the loop
condition fails. -/
lemma loopFuel_some (p : CollideParams) :
    ∀ (fuel : ℕ) (s t : LoopState), loopFuel p fuel s = some t →
      ∃ n, n < fuel ∧ (∀ k, k < n → loopCond p ((collideStep p)^[k] s)) ∧
        ¬loopCond p ((collideStep p)^[n] s) ∧ t = (collideStep p)^[n] s := by
  intro fuel
  induction fuel with
  | zero => intro s t h; simp [loopFuel] at h
  | succ n ih =>
    intro s t h
    rw [loopFuel] at h
    by_cases hc : loopCond p s
    · rw [if_pos hc] at h
      obtain ⟨m, hm, hall, hnot, ht⟩ := ih _ _ h
      refine ⟨m + 1, by omega, ?_, ?_, ?_⟩
      · intro k hk
        cases k with
        | zero => simpa using hc
        | succ j =>
          rw [Function.iterate_succ_apply]
          exact hall j (by omega)
      · rw [Function.iterate_succ_apply]
        exact hnot
      · rw [Function.iterate_succ_apply]
        exact ht
    · rw [if_neg hc] at h
      refine ⟨0, by omega, by omega, by simpa using hc, by simpa using h.symm⟩

/-- If some iterate falsifies the loop condition, the loop terminates
(with enough fuel). -/
lemma loopFuel_isSome (p : CollideParams) :
    ∀ (n : ℕ) (s : LoopState), ¬loopCond p ((collideStep p)^[n] s) →
      (loopFuel p (n + 1) s).isSome := by
  intro n
  induction n with
  | zero =>
    intro s h
    simp only [Function.iterate_zero_apply] at h
    rw [loopFuel, if_neg h]
    rfl
  | succ m ih =>
    intro s h
    by_cases hc : loopCond p s
    · rw [Function.iterate_succ_apply] at h
      have := ih (collideStep p s) h
      rw [loopFuel, if_pos hc]
      exact this
    · rw [loopFuel, if_neg hc]
      rfl

/-- A fixed point of the loop body that satisfies the loop condition makes
the loop run forever. -/
lemma loopFuel_none_of_fixed (p : CollideParams) (s : LoopState)
    (hc : loopCond p s) (hfix : collideStep p s = s) :
    ∀ n, loopFuel p n s = none := by
  intro n
  induction n with
  | zero => rfl
  | succ m ih => rw [loopFuel, if_pos hc, hfix]; exact ih

/-! ### The friction-free (head-on) regime

If both balls carry no spin and share their transverse velocity
component, the ball-ball contact-point slip vanishes, the source's
`u_ijC_xz_mag < 1e-16` guard fires, and each iteration reduces to a pure
normal impulse exchange. -/

/-- In the no-spin, equal-transverse-velocity regime all six impulse
increments vanish. -/
lemma impulses_friction_free (p : CollideParams) (s : LoopState)
    (hx : s.v_ix = s.v_jx) (hwix : s.w_ix = 0) (hwiz : s.w_iz = 0)
    (hwjx : s.w_jx = 0) (hwjz : s.w_jz = 0) :
    impulses p s = (0, 0, 0, 0, 0, 0) := by
  unfold impulses
  rw [hx, hwix, hwiz, hwjx, hwjz]
  have h1 : s.v_jx - s.v_jx - p.R * (0 + 0) = 0 := by ring
  have h2 : p.R * (0 + 0) = 0 := by ring
  simp only [h1, h2]
  norm_num

/-- One loop iteration in the friction-free regime updates the two
velocity components along the line of centers by a pure normal impulse of
magnitude `deltaP` and leaves the transverse velocities and the (zero)
spins alone. -/
lemma collideStep_friction_free (p : CollideParams) (s : LoopState)
    (hx : s.v_ix = s.v_jx)
    (hwix : s.w_ix = 0) (hwiy : s.w_iy = 0) (hwiz : s.w_iz = 0)
    (hwjx : s.w_jx = 0) (hwjy : s.w_jy = 0) (hwjz : s.w_jz = 0) :
    (collideStep p s).v_ix = s.v_ix ∧
    (collideStep p s).v_jx = s.v_jx ∧
    (collideStep p s).v_iy = s.v_iy - p.deltaP / p.M ∧
    (collideStep p s).v_jy = s.v_jy + p.deltaP / p.M ∧
    (collideStep p s).w_ix = 0 ∧ (collideStep p s).w_iy = 0 ∧
    (collideStep p s).w_iz = 0 ∧ (collideStep p s).w_jx = 0 ∧
    (collideStep p s).w_jy = 0 ∧ (collideStep p s).w_jz = 0 ∧
    (collideStep p s).W = s.W + 1 / 2 * p.deltaP *
      |2 * s.v_ijy + 2 * (p.deltaP / p.M)| ∧
    (collideStep p s).W_c = (if s.W_c = none ∧
        s.v_ijy + 2 * (p.deltaP / p.M) > 0 then
        some (s.W + 1 / 2 * p.deltaP * |2 * s.v_ijy + 2 * (p.deltaP / p.M)|)
      else s.W_c) := by
  unfold collideStep
  rw [impulses_friction_free p s hx hwix hwiz hwjx hwjz]
  simp only [LoopState.v_ijy, hwix, hwiy, hwiz, hwjx, hwjy, hwjz]
  have harg : s.v_jy - s.v_iy +
      (s.v_jy + (p.deltaP + 0) / p.M - (s.v_iy + (-p.deltaP + 0) / p.M)) =
      2 * (s.v_jy - s.v_iy) + 2 * (p.deltaP / p.M) := by ring
  have hcond : (s.v_jy + (p.deltaP + 0) / p.M -
      (s.v_iy + (-p.deltaP + 0) / p.M) > 0) =
      (s.v_jy - s.v_iy + 2 * (p.deltaP / p.M) > 0) := by
    have : s.v_jy + (p.deltaP + 0) / p.M - (s.v_iy + (-p.deltaP + 0) / p.M) =
        s.v_jy - s.v_iy + 2 * (p.deltaP / p.M) := by ring
    rw [this]
  simp only [harg, hcond]
  norm_num
  ring


/-! ## Theorems -/

/-- C5: For the degenerate quartic whose trailing coefficient is exactly
zero, with coefficients (0.9604, -22.3425, 131.1430, -13.9690, 0) as the
spec gives them, the quartic solver returns all four roots equal to
exactly 0+0i. -/
theorem quartic_solve_trailing_zero_all_roots_exactly_zero :
    quartic_solve 0.9604 (-22.3425) 131.1430 (-13.9690) 0 =
      some (fun _ => (0 : ℂ)) := by
  simp [quartic_solve]

/-- C10: Explicitly passing 0 for every numeric parameter of
`PocketTable.__init__` and `BilliardTable.__init__` produces exactly the
same stored parameters as passing nothing at all (the module defaults),
because defaults are applied with Python's truthiness operator `or`; in
particular `PocketTable(side_pocket_depth=0)` stores the default
`0.00437`, not `0`. -/
theorem table_init_zero_params_fall_back_to_defaults :
    PocketTable_init_params (some 0) (some 0) (some 0) (some 0) (some 0)
        (some 0) (some 0) (some 0) (some 0) (some 0) (some 0) (some 0)
        (some 0) (some 0) (some 0) (some 0) =
      PocketTable_init_params none none none none none none none none none
        none none none none none none none ∧
    (PocketTable_init_params none none none none none none none none none
        none none (some 0) none none none none).side_pocket_depth =
      437 / 100000 ∧
    (437 / 100000 : ℚ) ≠ 0 ∧
    BilliardTable_init_params (some 0) (some 0) (some 0) (some 0) (some 0)
        (some 0) =
      BilliardTable_init_params none none none none none none := by
  refine ⟨?_, ?_, by norm_num, ?_⟩ <;>
    simp [PocketTable_init_params, BilliardTable_init_params, pyOr,
      tconst.side_pocket_depth] <;> norm_num

/-- C6: Constructing a `LinearCushionSegment` succeeds exactly when the
two endpoints share their z-height and the collision-direction flag is 0,
1 or 2; in every other case the constructor raises a construction error
and no object is produced. -/
theorem linear_cushion_segment_construction_validation
    (cushion_id : String) (p1 p2 : Vec3) (direction : ℤ) :
    ((∃ seg, LinearCushionSegment_init cushion_id p1 p2 direction =
        Except.ok seg) ↔
      (p1.2.2 = p2.2.2 ∧ (direction = 0 ∨ direction = 1 ∨ direction = 2))) ∧
    ((∃ msg, LinearCushionSegment_init cushion_id p1 p2 direction =
        Except.error msg) ↔
      ¬(p1.2.2 = p2.2.2 ∧ (direction = 0 ∨ direction = 1 ∨ direction = 2))) := by
  unfold LinearCushionSegment_init
  by_cases hz : p1.2.2 = p2.2.2 <;>
    by_cases hd : direction = 0 ∨ direction = 1 ∨ direction = 2 <;>
      simp [hz, hd]

/-! ### A concrete terminating run of the resolver -/

/-- A concrete three-check run of the collision loop (balls separating at
unit speed, `e_b = 1`, `deltaP = 1/1000`): the loop exits after two
iterations. -/
lemma canonical_loop :
    loopFuel ⟨1, 1, 0, 0, 0, 1, 1/1000⟩ 3
      ⟨0, 0, 0, 1, 0, 0, 0, 0, 0, 0, 0, none⟩ =
    some ⟨0, -(1/500), 0, 501/500, 0, 0, 0, 0, 0, 0, 501/250000,
      some (1001/1000000)⟩ := by
  have h1 : collideStep ⟨1, 1, 0, 0, 0, 1, 1/1000⟩
      ⟨0, 0, 0, 1, 0, 0, 0, 0, 0, 0, 0, none⟩ =
      ⟨0, -(1/1000), 0, 1001/1000, 0, 0, 0, 0, 0, 0, 1001/1000000,
        some (1001/1000000)⟩ := by
    norm_num [collideStep, impulses, LoopState.v_ijy, abs_of_pos,
      LoopState.mk.injEq]
  have h2 : collideStep ⟨1, 1, 0, 0, 0, 1, 1/1000⟩
      ⟨0, -(1/1000), 0, 1001/1000, 0, 0, 0, 0, 0, 0, 1001/1000000,
        some (1001/1000000)⟩ =
      ⟨0, -(1/500), 0, 501/500, 0, 0, 0, 0, 0, 0, 501/250000,
        some (1001/1000000)⟩ := by
    norm_num [collideStep, impulses, LoopState.v_ijy, abs_of_pos,
      LoopState.mk.injEq]
    simp
  have hc0 : loopCond ⟨1, 1, 0, 0, 0, 1, 1/1000⟩
      ⟨0, 0, 0, 1, 0, 0, 0, 0, 0, 0, 0, none⟩ := Or.inr trivial
  have hc1 : loopCond ⟨1, 1, 0, 0, 0, 1, 1/1000⟩
      ⟨0, -(1/1000), 0, 1001/1000, 0, 0, 0, 0, 0, 0, 1001/1000000,
        some (1001/1000000)⟩ := Or.inr (by norm_num)
  have hc2 : ¬loopCond ⟨1, 1, 0, 0, 0, 1, 1/1000⟩
      ⟨0, -(1/500), 0, 501/500, 0, 0, 0, 0, 0, 0, 501/250000,
        some (1001/1000000)⟩ := by
    norm_num [loopCond, LoopState.v_ijy]
  rw [show (3 : ℕ) = 2 + 1 from rfl, loopFuel, if_pos hc0, h1,
    show (2 : ℕ) = 1 + 1 from rfl, loopFuel, if_pos hc1, h2,
    show (1 : ℕ) = 0 + 1 from rfl, loopFuel, if_neg hc2]

/-- The same run through the `collide_balls` wrapper (centers one unit
apart along the global y axis, so the local frame is the global one). -/
lemma canonical_collide :
    collide_balls (0, 0, 0) (0, 0, 0) (0, 0, 0) (0, 1, 0) (0, 1, 0)
      (0, 0, 0) 1 1 0 0 0 1 none 1000 3 =
    some ((0, -(1/500), 0), (0, 0, 0), (0, 501/500, 0), (0, 0, 0)) := by
  have h := canonical_loop
  norm_num [collide_balls, collideInitial, collideParamsOf, collideOutput,
    y_loc_of, x_loc_of, LoopState.v_ijy, Vec3.sub, Vec3.dot, Vec3.div,
    Vec3.cross, Vec3.smul, Vec3.add3, z_loc, Real.sqrt_one, abs_of_pos]
    at h ⊢
  rw [h]
  norm_num

/-- The same run through `FrictionalMathavan.solve`. -/
lemma canonical_solve :
    FrictionalMathavan_solve
      ⟨⟨1, 1, 0, 0, 1⟩, ⟨(0, 0, 0), (0, 0, 0), (0, 0, 0), const.stationary⟩⟩
      ⟨⟨1, 1, 0, 0, 1⟩, ⟨(0, 1, 0), (0, 1, 0), (0, 0, 0), const.rolling⟩⟩ 3 =
    some
      (⟨⟨1, 1, 0, 0, 1⟩,
        ⟨(0, 0, 0), (0, -(1/500), 0), (0, 0, 0), const.sliding⟩⟩,
       ⟨⟨1, 1, 0, 0, 1⟩,
        ⟨(0, 1, 0), (0, 501/500, 0), (0, 0, 0), const.sliding⟩⟩) := by
  unfold FrictionalMathavan_solve
  norm_num
  have h := canonical_collide
  norm_num at h
  rw [h]

/-- C2: Whenever `FrictionalMathavan.solve` resolves a ball-ball
collision, both participating balls exit with motion-phase tag `sliding`
(`const.sliding = 2`), regardless of their pre-collision phases and
kinematic states. -/
theorem frictional_mathavan_solve_exits_sliding (b1 b2 b1' b2' : Ball)
    (fuel : ℕ) (h : FrictionalMathavan_solve b1 b2 fuel = some (b1', b2')) :
    b1'.state.s = const.sliding ∧ b2'.state.s = const.sliding := by
  unfold FrictionalMathavan_solve at h
  cases hc : collide_balls b1.state.r b1.state.v b1.state.w b2.state.r
      b2.state.v b2.state.w b1.params.R b1.params.m b1.params.u_s
      b2.params.u_s ((b1.params.u_b + b2.params.u_b) / 2)
      ((b1.params.e_b + b2.params.e_b) / 2) none 1000 fuel with
  | none => rw [hc] at h; exact absurd h (by simp)
  | some out =>
    obtain ⟨v1, w1, v2, w2⟩ := out
    rw [hc] at h
    simp only [Option.some.injEq, Prod.mk.injEq] at h
    obtain ⟨h1, h2⟩ := h
    rw [← h1, ← h2]
    exact ⟨rfl, rfl⟩

/-- C2 witness: a concrete resolved collision in which both balls indeed
exit in the sliding phase. -/
theorem frictional_mathavan_solve_exits_sliding_witness :
    FrictionalMathavan_solve
        ⟨⟨1, 1, 0, 0, 1⟩,
         ⟨(0, 0, 0), (0, 0, 0), (0, 0, 0), const.stationary⟩⟩
        ⟨⟨1, 1, 0, 0, 1⟩, ⟨(0, 1, 0), (0, 1, 0), (0, 0, 0), const.rolling⟩⟩
        3 =
      some
        (⟨⟨1, 1, 0, 0, 1⟩,
          ⟨(0, 0, 0), (0, -(1/500), 0), (0, 0, 0), const.sliding⟩⟩,
         ⟨⟨1, 1, 0, 0, 1⟩,
          ⟨(0, 1, 0), (0, 501/500, 0), (0, 0, 0), const.sliding⟩⟩) ∧
    (⟨⟨1, 1, 0, 0, 1⟩,
      ⟨(0, 0, 0), (0, -(1/500), 0), (0, 0, 0),
       const.sliding⟩⟩ : Ball).state.s = const.sliding ∧
    (⟨⟨1, 1, 0, 0, 1⟩,
      ⟨(0, 1, 0), (0, 501/500, 0), (0, 0, 0),
       const.sliding⟩⟩ : Ball).state.s = const.sliding :=
  ⟨canonical_solve,
   frictional_mathavan_solve_exits_sliding _ _ _ _ 3 canonical_solve⟩

/-- C9: The resolver touches only the two participant balls' velocity,
spin and phase: it is a pure function of the two participants, and both
balls keep their position vectors (and their physical parameters)
unchanged across the resolution. -/
theorem frictional_mathavan_solve_preserves_positions (b1 b2 b1' b2' : Ball)
    (fuel : ℕ) (h : FrictionalMathavan_solve b1 b2 fuel = some (b1', b2')) :
    b1'.state.r = b1.state.r ∧ b2'.state.r = b2.state.r ∧
    b1'.params = b1.params ∧ b2'.params = b2.params := by
  unfold FrictionalMathavan_solve at h
  cases hc : collide_balls b1.state.r b1.state.v b1.state.w b2.state.r
      b2.state.v b2.state.w b1.params.R b1.params.m b1.params.u_s
      b2.params.u_s ((b1.params.u_b + b2.params.u_b) / 2)
      ((b1.params.e_b + b2.params.e_b) / 2) none 1000 fuel with
  | none => rw [hc] at h; exact absurd h (by simp)
  | some out =>
    obtain ⟨v1, w1, v2, w2⟩ := out
    rw [hc] at h
    simp only [Option.some.injEq, Prod.mk.injEq] at h
    obtain ⟨h1, h2⟩ := h
    rw [← h1, ← h2]
    exact ⟨rfl, rfl, rfl, rfl⟩

/-- C9 witness: a concrete resolution in which both positions (and
parameter records) are unchanged. -/
theorem frictional_mathavan_solve_preserves_positions_witness :
    FrictionalMathavan_solve
        ⟨⟨1, 1, 0, 0, 1⟩,
         ⟨(0, 0, 0), (0, 0, 0), (0, 0, 0), const.stationary⟩⟩
        ⟨⟨1, 1, 0, 0, 1⟩, ⟨(0, 1, 0), (0, 1, 0), (0, 0, 0), const.rolling⟩⟩
        3 =
      some
        (⟨⟨1, 1, 0, 0, 1⟩,
          ⟨(0, 0, 0), (0, -(1/500), 0), (0, 0, 0), const.sliding⟩⟩,
         ⟨⟨1, 1, 0, 0, 1⟩,
          ⟨(0, 1, 0), (0, 501/500, 0), (0, 0, 0), const.sliding⟩⟩) ∧
    ((0, 0, 0) : Vec3) = ((0, 0, 0) : Vec3) ∧
    ((0, 1, 0) : Vec3) = ((0, 1, 0) : Vec3) :=
  ⟨canonical_solve,
   (frictional_mathavan_solve_preserves_positions _ _ _ _ 3
      canonical_solve).1,
   (frictional_mathavan_solve_preserves_positions _ _ _ _ 3
      canonical_solve).2.1⟩

/-! ### Per-iteration bounds and termination of the collision loop -/

lemma collideStep_v_iy_eq (p : CollideParams) (s : LoopState) :
    (collideStep p s).v_iy =
      s.v_iy + (-p.deltaP + (impulses p s).2.2.2.1) / p.M := rfl

lemma collideStep_v_jy_eq (p : CollideParams) (s : LoopState) :
    (collideStep p s).v_jy =
      s.v_jy + (p.deltaP + (impulses p s).2.2.2.2.2) / p.M := rfl

lemma collideStep_W_eq (p : CollideParams) (s : LoopState) :
    (collideStep p s).W = s.W + 1 / 2 * p.deltaP *
      |(s.v_jy - s.v_iy) +
        ((collideStep p s).v_jy - (collideStep p s).v_iy)| := rfl

lemma collideStep_W_c_eq (p : CollideParams) (s : LoopState) :
    (collideStep p s).W_c =
      if s.W_c = none ∧ (collideStep p s).v_jy - (collideStep p s).v_iy > 0
      then some ((collideStep p s).W) else s.W_c := rfl

/-- The component ratio entering every Coulomb friction direction has
magnitude at most one. -/
lemma abs_div_sqrt_le_one (a b : ℝ) : |b| / Real.sqrt (a ^ 2 + b ^ 2) ≤ 1 := by
  rcases eq_or_lt_of_le (Real.sqrt_nonneg (a ^ 2 + b ^ 2)) with h | h
  · rw [← h]
    simp
  · rw [div_le_one h, ← Real.sqrt_sq_eq_abs]
    exact Real.sqrt_le_sqrt (by nlinarith)

lemma abs_friction_term_le (us y x d B : ℝ) (hus : 0 ≤ us) (hd : |d| ≤ B) :
    |us * (y / Real.sqrt (x ^ 2 + y ^ 2)) * d| ≤ us * B := by
  have h1 : |y / Real.sqrt (x ^ 2 + y ^ 2)| ≤ 1 := by
    rw [abs_div, abs_of_nonneg (Real.sqrt_nonneg _)]
    exact abs_div_sqrt_le_one x y
  have hB : 0 ≤ B := le_trans (abs_nonneg d) hd
  rw [abs_mul, abs_mul, abs_of_nonneg hus]
  have h2 : |y / Real.sqrt (x ^ 2 + y ^ 2)| * |d| ≤ 1 * B :=
    mul_le_mul h1 hd (abs_nonneg d) zero_le_one
  rw [one_mul] at h2
  calc us * |y / Real.sqrt (x ^ 2 + y ^ 2)| * |d| =
      us * (|y / Real.sqrt (x ^ 2 + y ^ 2)| * |d|) := by ring
    _ ≤ us * B := mul_le_mul_of_nonneg_left h2 hus

/-- The ball-ball friction impulse `deltaP_2` is bounded by
`u_b * deltaP` in magnitude. -/
lemma abs_dP2_le (ub dp x z : ℝ) (hub : 0 ≤ ub) (hdp : 0 ≤ dp) :
    |(-ub) * dp * z / Real.sqrt (x ^ 2 + z ^ 2)| ≤ ub * dp := by
  rw [abs_div, abs_mul, abs_mul, abs_neg, abs_of_nonneg hub,
    abs_of_nonneg hdp, abs_of_nonneg (Real.sqrt_nonneg _)]
  rcases eq_or_lt_of_le (Real.sqrt_nonneg (x ^ 2 + z ^ 2)) with h | h
  · rw [← h, div_zero]
    positivity
  · rw [div_le_iff h]
    have hz : |z| ≤ Real.sqrt (x ^ 2 + z ^ 2) := by
      rw [← Real.sqrt_sq_eq_abs]
      exact Real.sqrt_le_sqrt (by nlinarith)
    have := mul_le_mul_of_nonneg_left hz (mul_nonneg hub hdp)
    linarith

/-- The two ball-table friction impulse y-components are bounded by
`u_s * u_b * deltaP` in magnitude. -/
lemma impulses_y_bounds (p : CollideParams) (s : LoopState)
    (hs1 : 0 ≤ p.u_s1) (hs2 : 0 ≤ p.u_s2) (hub : 0 ≤ p.u_b)
    (hdp : 0 ≤ p.deltaP) :
    |(impulses p s).2.2.2.1| ≤ p.u_s1 * (p.u_b * p.deltaP) ∧
    |(impulses p s).2.2.2.2.2| ≤ p.u_s2 * (p.u_b * p.deltaP) := by
  have hB : (0 : ℝ) ≤ p.u_b * p.deltaP := mul_nonneg hub hdp
  unfold impulses
  dsimp only
  split_ifs with h1 h2 h3 h4 h5
  · constructor <;> · simp only [abs_zero]; positivity
  · constructor <;> · simp only [abs_zero]; positivity
  · constructor <;> · simp only [abs_zero]; positivity
  · refine ⟨by simp only [abs_zero]; positivity, ?_⟩
    have := abs_dP2_le p.u_b p.deltaP
      (s.v_ix - s.v_jx - p.R * (s.w_iz + s.w_jz)) (p.R * (s.w_ix + s.w_jx))
      hub hdp
    have h := abs_friction_term_le p.u_s2
      (s.v_jy - p.R * s.w_jx) (s.v_jx + p.R * s.w_jy)
      (-p.u_b * p.deltaP * (p.R * (s.w_ix + s.w_jx)) /
        Real.sqrt ((s.v_ix - s.v_jx - p.R * (s.w_iz + s.w_jz)) ^ 2 +
          (p.R * (s.w_ix + s.w_jx)) ^ 2))
      (p.u_b * p.deltaP) hs2 (by simpa using this)
    calc |-p.u_s2 * ((s.v_jy - p.R * s.w_jx) /
          Real.sqrt ((s.v_jx + p.R * s.w_jy) ^ 2 +
            (s.v_jy - p.R * s.w_jx) ^ 2)) *
          (-p.u_b * p.deltaP * (p.R * (s.w_ix + s.w_jx)) /
            Real.sqrt ((s.v_ix - s.v_jx - p.R * (s.w_iz + s.w_jz)) ^ 2 +
              (p.R * (s.w_ix + s.w_jx)) ^ 2))| =
        |p.u_s2 * ((s.v_jy - p.R * s.w_jx) /
          Real.sqrt ((s.v_jx + p.R * s.w_jy) ^ 2 +
            (s.v_jy - p.R * s.w_jx) ^ 2)) *
          (-p.u_b * p.deltaP * (p.R * (s.w_ix + s.w_jx)) /
            Real.sqrt ((s.v_ix - s.v_jx - p.R * (s.w_iz + s.w_jz)) ^ 2 +
              (p.R * (s.w_ix + s.w_jx)) ^ 2))| := by
          rw [← abs_neg]; ring_nf
      _ ≤ p.u_s2 * (p.u_b * p.deltaP) := h
  · constructor <;> · simp only [abs_zero]; positivity
  · refine ⟨?_, by simp only [abs_zero]; positivity⟩
    have := abs_dP2_le p.u_b p.deltaP
      (s.v_ix - s.v_jx - p.R * (s.w_iz + s.w_jz)) (p.R * (s.w_ix + s.w_jx))
      hub hdp
    have h := abs_friction_term_le p.u_s1
      (s.v_iy - p.R * s.w_ix) (s.v_ix + p.R * s.w_iy)
      (-p.u_b * p.deltaP * (p.R * (s.w_ix + s.w_jx)) /
        Real.sqrt ((s.v_ix - s.v_jx - p.R * (s.w_iz + s.w_jz)) ^ 2 +
          (p.R * (s.w_ix + s.w_jx)) ^ 2))
      (p.u_b * p.deltaP) hs1 (by simpa using this)
    exact h

/-- Every iteration increases the separation velocity by at least
`(2 - u_b*(u_s1+u_s2)) * deltaP / M`. -/
lemma collideStep_v_ijy_ge (p : CollideParams) (s : LoopState)
    (hM : 0 < p.M) (hs1 : 0 ≤ p.u_s1) (hs2 : 0 ≤ p.u_s2) (hub : 0 ≤ p.u_b)
    (hdp : 0 ≤ p.deltaP) :
    s.v_ijy + (2 - p.u_b * (p.u_s1 + p.u_s2)) * p.deltaP / p.M ≤
      (collideStep p s).v_ijy := by
  obtain ⟨hiy, hjy⟩ := impulses_y_bounds p s hs1 hs2 hub hdp
  rw [abs_le] at hiy hjy
  unfold LoopState.v_ijy
  rw [collideStep_v_iy_eq, collideStep_v_jy_eq]
  have key : (2 - p.u_b * (p.u_s1 + p.u_s2)) * p.deltaP ≤
      (p.deltaP + (impulses p s).2.2.2.2.2) - (-p.deltaP + (impulses p s).2.2.2.1) := by
    nlinarith [hiy.1, hiy.2, hjy.1, hjy.2]
  have key2 : (2 - p.u_b * (p.u_s1 + p.u_s2)) * p.deltaP / p.M ≤
      ((p.deltaP + (impulses p s).2.2.2.2.2) -
        (-p.deltaP + (impulses p s).2.2.2.1)) / p.M :=
    div_le_div_of_nonneg_right key (le_of_lt hM)
  rw [sub_div] at key2
  linarith

/-- With a nonnegative per-step increment, the accumulated work grows by
at least `deltaP * v_ijy` per iteration. -/
lemma collideStep_W_ge (p : CollideParams) (s : LoopState)
    (hM : 0 < p.M) (hs1 : 0 ≤ p.u_s1) (hs2 : 0 ≤ p.u_s2) (hub : 0 ≤ p.u_b)
    (hdp : 0 ≤ p.deltaP) (hfric : p.u_b * (p.u_s1 + p.u_s2) ≤ 2) :
    s.W + p.deltaP * s.v_ijy ≤ (collideStep p s).W := by
  have hstep := collideStep_v_ijy_ge p s hM hs1 hs2 hub hdp
  have hc : 0 ≤ (2 - p.u_b * (p.u_s1 + p.u_s2)) * p.deltaP / p.M := by
    have : 0 ≤ (2 - p.u_b * (p.u_s1 + p.u_s2)) := by linarith
    positivity
  rw [collideStep_W_eq]
  have habs : (s.v_jy - s.v_iy) +
      ((collideStep p s).v_jy - (collideStep p s).v_iy) ≤
      |(s.v_jy - s.v_iy) +
        ((collideStep p s).v_jy - (collideStep p s).v_iy)| := le_abs_self _
  have hv1 : s.v_jy - s.v_iy ≤
      (collideStep p s).v_jy - (collideStep p s).v_iy := by
    have h := hstep
    unfold LoopState.v_ijy at h
    linarith
  unfold LoopState.v_ijy at hv1 ⊢
  nlinarith [hv1, habs, hdp]

/-- Once recorded, the compression work `W_c` never changes. -/
lemma collideStep_W_c_persist (p : CollideParams) (s : LoopState) (wc : ℝ)
    (h : s.W_c = some wc) : (collideStep p s).W_c = some wc := by
  rw [collideStep_W_c_eq, h]
  simp

/-- After an iteration that leaves the balls separating, `W_c` is
recorded. -/
lemma collideStep_W_c_isSome (p : CollideParams) (s : LoopState)
    (h : 0 < (collideStep p s).v_ijy) :
    ∃ wc, (collideStep p s).W_c = some wc := by
  cases hwc : s.W_c with
  | some wc => exact ⟨wc, collideStep_W_c_persist p s wc hwc⟩
  | none =>
    rw [collideStep_W_c_eq, hwc]
    unfold LoopState.v_ijy at h
    exact ⟨(collideStep p s).W, by rw [if_pos ⟨rfl, h⟩]⟩

/-- Lower bound for the separation velocity along the iteration. -/
lemma iterate_v_ijy_ge (p : CollideParams)
    (hM : 0 < p.M) (hs1 : 0 ≤ p.u_s1) (hs2 : 0 ≤ p.u_s2) (hub : 0 ≤ p.u_b)
    (hdp : 0 ≤ p.deltaP) (s : LoopState) :
    ∀ k : ℕ, s.v_ijy +
      k * ((2 - p.u_b * (p.u_s1 + p.u_s2)) * p.deltaP / p.M) ≤
      ((collideStep p)^[k] s).v_ijy := by
  intro k
  induction k with
  | zero => simp
  | succ n ih =>
    rw [Function.iterate_succ_apply']
    have := collideStep_v_ijy_ge p ((collideStep p)^[n] s) hM hs1 hs2 hub hdp
    push_cast
    push_cast at ih
    linarith

/-- `W_c` persists along the iteration. -/
lemma iterate_W_c_persist (p : CollideParams) (s : LoopState) (wc : ℝ)
    (h : s.W_c = some wc) :
    ∀ k : ℕ, ((collideStep p)^[k] s).W_c = some wc := by
  intro k
  induction k with
  | zero => simpa using h
  | succ n ih =>
    rw [Function.iterate_succ_apply']
    exact collideStep_W_c_persist p _ wc ih

/-- Linear lower bound for the accumulated work once the balls separate. -/
lemma iterate_W_ge (p : CollideParams)
    (hM : 0 < p.M) (hs1 : 0 ≤ p.u_s1) (hs2 : 0 ≤ p.u_s2) (hub : 0 ≤ p.u_b)
    (hdp : 0 ≤ p.deltaP) (hfric : p.u_b * (p.u_s1 + p.u_s2) ≤ 2)
    (s : LoopState) (hpos : 0 ≤ s.v_ijy) :
    ∀ k : ℕ, s.W + k * (p.deltaP * s.v_ijy) ≤ ((collideStep p)^[k] s).W := by
  intro k
  induction k with
  | zero => simp
  | succ n ih =>
    rw [Function.iterate_succ_apply']
    have hW := collideStep_W_ge p ((collideStep p)^[n] s) hM hs1 hs2 hub hdp
      hfric
    have hv : s.v_ijy ≤ ((collideStep p)^[n] s).v_ijy := by
      have := iterate_v_ijy_ge p hM hs1 hs2 hub hdp s n
      have hc : 0 ≤ (2 - p.u_b * (p.u_s1 + p.u_s2)) * p.deltaP / p.M := by
        have h2 : 0 ≤ (2 - p.u_b * (p.u_s1 + p.u_s2)) := by linarith
        positivity
      nlinarith [this, hc]
    have hmul : p.deltaP * s.v_ijy ≤
        p.deltaP * ((collideStep p)^[n] s).v_ijy :=
      mul_le_mul_of_nonneg_left hv hdp
    push_cast
    push_cast at ih
    linarith

/-- Whenever `deltaP` is strictly positive and the ball-ball and
ball-table friction coefficients satisfy `u_b * (u_s1 + u_s2) < 2`, the
collision loop terminates from any initial state. -/
lemma loop_terminates (p : CollideParams)
    (hM : 0 < p.M) (hs1 : 0 ≤ p.u_s1) (hs2 : 0 ≤ p.u_s2) (hub : 0 ≤ p.u_b)
    (hdp : 0 < p.deltaP) (hfric : p.u_b * (p.u_s1 + p.u_s2) < 2)
    (s : LoopState) :
    ∃ fuel, (loopFuel p fuel s).isSome := by
  set c := (2 - p.u_b * (p.u_s1 + p.u_s2)) * p.deltaP / p.M with hc_def
  have hc : 0 < c := by
    have h2 : 0 < (2 - p.u_b * (p.u_s1 + p.u_s2)) := by linarith
    positivity
  obtain ⟨k1, hk1⟩ := exists_nat_gt ((-s.v_ijy) / c)
  have hv1 : 0 < ((collideStep p)^[k1] s).v_ijy := by
    have hgrow := iterate_v_ijy_ge p hM hs1 hs2 hub (le_of_lt hdp) s k1
    rw [div_lt_iff hc] at hk1
    linarith
  set t := (collideStep p)^[k1 + 1] s with ht_def
  have ht_eq : t = collideStep p ((collideStep p)^[k1] s) := by
    rw [ht_def, Function.iterate_succ_apply']
  have hvt : 0 < t.v_ijy := by
    rw [ht_eq]
    have := collideStep_v_ijy_ge p ((collideStep p)^[k1] s) hM hs1 hs2 hub
      (le_of_lt hdp)
    nlinarith [hv1, hc]
  obtain ⟨wc, hwc⟩ : ∃ wc, t.W_c = some wc := by
    rw [ht_eq]
    exact collideStep_W_c_isSome p _ (by rw [← ht_eq]; exact hvt)
  have hdv : 0 < p.deltaP * t.v_ijy := mul_pos hdp hvt
  obtain ⟨j, hj⟩ := exists_nat_gt
    (((1 + p.e_b ^ 2) * wc - t.W) / (p.deltaP * t.v_ijy))
  have hWj : (1 + p.e_b ^ 2) * wc ≤ ((collideStep p)^[j] t).W := by
    have hgrow := iterate_W_ge p hM hs1 hs2 hub (le_of_lt hdp)
      (le_of_lt hfric) t (le_of_lt hvt) j
    rw [div_lt_iff hdv] at hj
    linarith
  have hvj : 0 < ((collideStep p)^[j] t).v_ijy := by
    have hgrow := iterate_v_ijy_ge p hM hs1 hs2 hub (le_of_lt hdp) t j
    have : (0 : ℝ) ≤ j * c := by positivity
    nlinarith [hvt]
  have hwcj : ((collideStep p)^[j] t).W_c = some wc :=
    iterate_W_c_persist p t wc hwc j
  have hend : ¬loopCond p ((collideStep p)^[j] t) := by
    unfold loopCond
    rw [hwcj]
    push_neg
    exact ⟨le_of_lt hvj, not_lt.mpr hWj⟩
  have hiter : (collideStep p)^[j] t = (collideStep p)^[j + (k1 + 1)] s := by
    rw [ht_def, ← Function.iterate_add_apply]
  rw [hiter] at hend
  exact ⟨j + (k1 + 1) + 1, loopFuel_isSome p _ s hend⟩

/-- C1 counterexample: `collide_balls` has no iteration cap and raises no
error; on this degenerate input (balls at rest, zero approach velocity,
so the automatically selected `deltaP` is zero) the loop body is the
identity while the loop condition stays true, so no amount of fuel makes
the loop finish: the source loop runs unboundedly. -/
theorem collide_balls_can_run_unboundedly :
    ¬∃ (fuel : ℕ) (out : Vec3 × Vec3 × Vec3 × Vec3),
      collide_balls (0, 0, 0) (0, 0, 0) (0, 0, 0) (0, 1, 0) (0, 0, 0)
        (0, 0, 0) 1 1 (21/100) (21/100) (1/20) (89/100) none 1000 fuel =
      some out := by
  rintro ⟨fuel, out, h⟩
  have hinit : collideInitial (0, 0, 0) (0, 0, 0) (0, 0, 0) (0, 1, 0)
      (0, 0, 0) (0, 0, 0) = ⟨0, 0, 0, 0, 0, 0, 0, 0, 0, 0, 0, none⟩ := by
    norm_num [collideInitial, y_loc_of, x_loc_of, Vec3.dot, Vec3.div,
      Vec3.sub, Vec3.cross, z_loc, LoopState.mk.injEq]
  have hpar : collideParamsOf 1 1 (21/100) (21/100) (1/20) (89/100) none
      1000 (⟨0, 0, 0, 0, 0, 0, 0, 0, 0, 0, 0, none⟩ : LoopState) =
      ⟨1, 1, 21/100, 21/100, 1/20, 89/100, 0⟩ := by
    norm_num [collideParamsOf, LoopState.v_ijy, CollideParams.mk.injEq]
  have hfix : collideStep ⟨1, 1, 21/100, 21/100, 1/20, 89/100, 0⟩
      ⟨0, 0, 0, 0, 0, 0, 0, 0, 0, 0, 0, none⟩ =
      ⟨0, 0, 0, 0, 0, 0, 0, 0, 0, 0, 0, none⟩ := by
    norm_num [collideStep, impulses, LoopState.mk.injEq]
  have hnone := loopFuel_none_of_fixed
    ⟨1, 1, 21/100, 21/100, 1/20, 89/100, 0⟩
    ⟨0, 0, 0, 0, 0, 0, 0, 0, 0, 0, 0, none⟩ (Or.inr trivial) hfix fuel
  unfold collide_balls at h
  rw [hinit, hpar, hnone] at h
  exact absurd h (by simp)

/-- C1 (amended): `collide_balls` is a deterministic function of its
inputs, but the source implements no hard iteration cap and reports no
error on non-convergence; on degenerate inputs with zero approach
velocity the loop runs unboundedly (see the counterexample), while for
every input in which the balls approach along the line of centers (and
physically meaningful parameters with `u_b * (u_s1 + u_s2) < 2`), the
loop terminates within a finite number of iterations. -/
theorem collide_balls_terminates_for_approaching_balls
    (r_i v_i w_i r_j v_j w_j : Vec3) (R M u_s1 u_s2 u_b e_b N : ℝ)
    (happ : Vec3.dot (Vec3.sub v_j v_i) (Vec3.sub r_j r_i) < 0)
    (hM : 0 < M) (hs1 : 0 ≤ u_s1) (hs2 : 0 ≤ u_s2) (hub : 0 ≤ u_b)
    (hfric : u_b * (u_s1 + u_s2) < 2) (heb : 0 ≤ e_b) (hN : 0 < N) :
    ∃ fuel out,
      collide_balls r_i v_i w_i r_j v_j w_j R M u_s1 u_s2 u_b e_b none N
        fuel = some out := by
  have h0 : 0 ≤ Vec3.dot (Vec3.sub r_j r_i) (Vec3.sub r_j r_i) := by
    unfold Vec3.dot
    nlinarith [mul_self_nonneg (Vec3.sub r_j r_i).1,
      mul_self_nonneg (Vec3.sub r_j r_i).2.1,
      mul_self_nonneg (Vec3.sub r_j r_i).2.2]
  have hrr : 0 < Vec3.dot (Vec3.sub r_j r_i) (Vec3.sub r_j r_i) := by
    rcases eq_or_lt_of_le h0 with heq | hlt
    · exfalso
      unfold Vec3.dot at heq
      have h1 : (Vec3.sub r_j r_i).1 = 0 := by
        nlinarith [mul_self_nonneg (Vec3.sub r_j r_i).1,
          mul_self_nonneg (Vec3.sub r_j r_i).2.1,
          mul_self_nonneg (Vec3.sub r_j r_i).2.2]
      have h2 : (Vec3.sub r_j r_i).2.1 = 0 := by
        nlinarith [mul_self_nonneg (Vec3.sub r_j r_i).1,
          mul_self_nonneg (Vec3.sub r_j r_i).2.1,
          mul_self_nonneg (Vec3.sub r_j r_i).2.2]
      have h3 : (Vec3.sub r_j r_i).2.2 = 0 := by
        nlinarith [mul_self_nonneg (Vec3.sub r_j r_i).1,
          mul_self_nonneg (Vec3.sub r_j r_i).2.1,
          mul_self_nonneg (Vec3.sub r_j r_i).2.2]
      unfold Vec3.dot at happ
      rw [h1, h2, h3] at happ
      norm_num at happ
    · exact hlt
  have hmag : 0 < Real.sqrt (Vec3.dot (Vec3.sub r_j r_i) (Vec3.sub r_j r_i)) :=
    Real.sqrt_pos.mpr hrr
  have hvy : (collideInitial r_i v_i w_i r_j v_j w_j).v_ijy =
      Vec3.dot (Vec3.sub v_j v_i) (Vec3.sub r_j r_i) /
        Real.sqrt (Vec3.dot (Vec3.sub r_j r_i) (Vec3.sub r_j r_i)) := by
    unfold collideInitial LoopState.v_ijy y_loc_of Vec3.dot Vec3.div Vec3.sub
    dsimp only
    ring
  have hvneg : (collideInitial r_i v_i w_i r_j v_j w_j).v_ijy < 0 := by
    rw [hvy]
    exact div_neg_of_neg_of_pos happ hmag
  have hdp : 0 < (collideParamsOf R M u_s1 u_s2 u_b e_b none N
      (collideInitial r_i v_i w_i r_j v_j w_j)).deltaP := by
    show 0 < 1 / 2 * (1 + e_b) * M *
      |(collideInitial r_i v_i w_i r_j v_j w_j).v_ijy| / N
    have habs : 0 < |(collideInitial r_i v_i w_i r_j v_j w_j).v_ijy| :=
      abs_pos.mpr (ne_of_lt hvneg)
    have h1e : 0 < 1 + e_b := by linarith
    positivity
  obtain ⟨fuel, hsome⟩ := loop_terminates
    (collideParamsOf R M u_s1 u_s2 u_b e_b none N
      (collideInitial r_i v_i w_i r_j v_j w_j))
    hM hs1 hs2 hub hdp hfric (collideInitial r_i v_i w_i r_j v_j w_j)
  obtain ⟨sf, hsf⟩ := Option.isSome_iff_exists.mp hsome
  refine ⟨fuel, collideOutput r_i r_j sf, ?_⟩
  unfold collide_balls
  rw [hsf]

/-- C1 witness: a concrete approaching configuration for which the
amended termination statement applies. -/
theorem collide_balls_terminates_for_approaching_balls_witness :
    Vec3.dot (Vec3.sub (0, 0, 0) (0, 1, 0))
      (Vec3.sub ((0, 1, 0) : Vec3) (0, 0, 0)) < 0 ∧
    (1/20 : ℝ) * (21/100 + 21/100) < 2 ∧
    ∃ fuel out,
      collide_balls (0, 0, 0) (0, 1, 0) (0, 0, 0) (0, 1, 0) (0, 0, 0)
        (0, 0, 0) 1 1 (21/100) (21/100) (1/20) (89/100) none 1000 fuel =
      some out :=
  ⟨by norm_num [Vec3.dot, Vec3.sub], by norm_num,
   collide_balls_terminates_for_approaching_balls
     (0, 0, 0) (0, 1, 0) (0, 0, 0) (0, 1, 0) (0, 0, 0) (0, 0, 0)
     1 1 (21/100) (21/100) (1/20) (89/100) 1000
     (by norm_num [Vec3.dot, Vec3.sub]) (by norm_num) (by norm_num)
     (by norm_num) (by norm_num) (by norm_num) (by norm_num)
     (by norm_num)⟩

/-! ### Compression / restitution structure of the loop (C3) -/

/-- Invariant: while no post-step iterate has had positive separation
velocity, `W_c` is still unrecorded; as soon as the first such iterate
`m` occurs, `W_c` is recorded as the accumulated work at `m` and kept. -/
lemma W_c_invariant (p : CollideParams) (s0 : LoopState)
    (hWc : s0.W_c = none) :
    ∀ k : ℕ,
      (((collideStep p)^[k] s0).W_c = none ∧
        ∀ j, 0 < j → j ≤ k → ((collideStep p)^[j] s0).v_ijy ≤ 0) ∨
      (∃ m, 0 < m ∧ m ≤ k ∧
        ((collideStep p)^[k] s0).W_c = some (((collideStep p)^[m] s0).W) ∧
        0 < ((collideStep p)^[m] s0).v_ijy ∧
        ∀ j, 0 < j → j < m → ((collideStep p)^[j] s0).v_ijy ≤ 0) := by
  intro k
  induction k with
  | zero => exact Or.inl ⟨by simpa using hWc, fun j hj hj0 => by omega⟩
  | succ n ih =>
    rcases ih with ⟨hnone, hall⟩ | ⟨m, hm0, hmn, hWcm, hvm, hprev⟩
    · by_cases hpos : 0 < ((collideStep p)^[n + 1] s0).v_ijy
      · refine Or.inr ⟨n + 1, by omega, le_refl _, ?_, hpos, ?_⟩
        · rw [Function.iterate_succ_apply', collideStep_W_c_eq, hnone]
          rw [Function.iterate_succ_apply'] at hpos
          unfold LoopState.v_ijy at hpos
          rw [if_pos ⟨rfl, hpos⟩]
        · intro j hj0 hj
          exact hall j hj0 (by omega)
      · refine Or.inl ⟨?_, ?_⟩
        · rw [Function.iterate_succ_apply', collideStep_W_c_eq, hnone]
          rw [Function.iterate_succ_apply'] at hpos
          unfold LoopState.v_ijy at hpos
          rw [if_neg (fun hco => hpos hco.2)]
        · intro j hj0 hj
          rcases Nat.lt_or_ge j (n + 1) with hlt | hge
          · exact hall j hj0 (by omega)
          · have : j = n + 1 := by omega
            rw [this]
            exact le_of_not_lt hpos
    · refine Or.inr ⟨m, hm0, by omega, ?_, hvm, hprev⟩
      rw [Function.iterate_succ_apply']
      exact collideStep_W_c_persist p _ _ hWcm

/-- C3: the loop of `collide_balls` runs through a compression phase
exactly until the separation velocity first becomes positive (at some
post-step iterate `m`), records the work accumulated up to `m` as `W_c`,
and then runs through a restitution phase exactly until the accumulated
work reaches `(1 + e_b^2) * W_c`; the loop exits at the first iterate
where both conditions hold. -/
theorem collide_loop_compression_restitution_structure
    (p : CollideParams) (s0 sf : LoopState) (fuel : ℕ)
    (hWc : s0.W_c = none) (hrun : loopFuel p fuel s0 = some sf) :
    ∃ n, sf = (collideStep p)^[n] s0 ∧
      (∀ k, k < n → loopCond p ((collideStep p)^[k] s0)) ∧
      ¬loopCond p ((collideStep p)^[n] s0) ∧
      0 ≤ sf.v_ijy ∧
      ∃ m wc, 0 < m ∧ m ≤ n ∧
        0 < ((collideStep p)^[m] s0).v_ijy ∧
        (∀ j, 0 < j → j < m → ((collideStep p)^[j] s0).v_ijy ≤ 0) ∧
        wc = ((collideStep p)^[m] s0).W ∧
        sf.W_c = some wc ∧
        (1 + p.e_b ^ 2) * wc ≤ sf.W := by
  obtain ⟨n, hn, hall, hnot, ht⟩ := loopFuel_some p fuel s0 sf hrun
  refine ⟨n, ht, hall, hnot, ?_, ?_⟩
  · have := hnot
    unfold loopCond at this
    push_neg at this
    rw [← ht] at this
    exact this.1
  · rcases W_c_invariant p s0 hWc n with ⟨hnone, _⟩ | ⟨m, hm0, hmn, hWcm, hvm, hprev⟩
    · exfalso
      apply hnot
      unfold loopCond
      rw [hnone]
      exact Or.inr trivial
    · refine ⟨m, ((collideStep p)^[m] s0).W, hm0, hmn, hvm, hprev, rfl,
        by rw [ht]; exact hWcm, ?_⟩
      unfold loopCond at hnot
      rw [hWcm] at hnot
      push_neg at hnot
      rw [ht]
      exact le_of_not_lt hnot.2

/-- C3 witness: the concrete two-iteration run, with its compression
phase ending after the first iteration. -/
theorem collide_loop_compression_restitution_structure_witness :
    ((⟨0, 0, 0, 1, 0, 0, 0, 0, 0, 0, 0, none⟩ : LoopState)).W_c = none ∧
    loopFuel ⟨1, 1, 0, 0, 0, 1, 1/1000⟩ 3
        ⟨0, 0, 0, 1, 0, 0, 0, 0, 0, 0, 0, none⟩ =
      some ⟨0, -(1/500), 0, 501/500, 0, 0, 0, 0, 0, 0, 501/250000,
        some (1001/1000000)⟩ ∧
    ∃ n, (⟨0, -(1/500), 0, 501/500, 0, 0, 0, 0, 0, 0, 501/250000,
        some (1001/1000000)⟩ : LoopState) =
        (collideStep ⟨1, 1, 0, 0, 0, 1, 1/1000⟩)^[n]
          ⟨0, 0, 0, 1, 0, 0, 0, 0, 0, 0, 0, none⟩ ∧
      (∀ k, k < n → loopCond ⟨1, 1, 0, 0, 0, 1, 1/1000⟩
        ((collideStep ⟨1, 1, 0, 0, 0, 1, 1/1000⟩)^[k]
          ⟨0, 0, 0, 1, 0, 0, 0, 0, 0, 0, 0, none⟩)) ∧
      ¬loopCond ⟨1, 1, 0, 0, 0, 1, 1/1000⟩
        ((collideStep ⟨1, 1, 0, 0, 0, 1, 1/1000⟩)^[n]
          ⟨0, 0, 0, 1, 0, 0, 0, 0, 0, 0, 0, none⟩) ∧
      0 ≤ (⟨0, -(1/500), 0, 501/500, 0, 0, 0, 0, 0, 0, 501/250000,
        some (1001/1000000)⟩ : LoopState).v_ijy ∧
      ∃ m wc, 0 < m ∧ m ≤ n ∧
        0 < ((collideStep ⟨1, 1, 0, 0, 0, 1, 1/1000⟩)^[m]
          ⟨0, 0, 0, 1, 0, 0, 0, 0, 0, 0, 0, none⟩).v_ijy ∧
        (∀ j, 0 < j → j < m →
          ((collideStep ⟨1, 1, 0, 0, 0, 1, 1/1000⟩)^[j]
            ⟨0, 0, 0, 1, 0, 0, 0, 0, 0, 0, 0, none⟩).v_ijy ≤ 0) ∧
        wc = ((collideStep ⟨1, 1, 0, 0, 0, 1, 1/1000⟩)^[m]
          ⟨0, 0, 0, 1, 0, 0, 0, 0, 0, 0, 0, none⟩).W ∧
        (⟨0, -(1/500), 0, 501/500, 0, 0, 0, 0, 0, 0, 501/250000,
          some (1001/1000000)⟩ : LoopState).W_c = some wc ∧
        (1 + (⟨1, 1, 0, 0, 0, 1, 1/1000⟩ : CollideParams).e_b ^ 2) * wc ≤
          (⟨0, -(1/500), 0, 501/500, 0, 0, 0, 0, 0, 0, 501/250000,
            some (1001/1000000)⟩ : LoopState).W :=
  ⟨rfl, canonical_loop,
   collide_loop_compression_restitution_structure _ _ _ 3 rfl canonical_loop⟩

/-! ### The head-on collision family (C7) -/

/-- Closed form for the iterates in the friction-free regime: the y
velocity components follow an arithmetic progression and the spins stay
zero. -/
lemma iterate_friction_free (p : CollideParams) (s : LoopState)
    (hx : s.v_ix = s.v_jx)
    (hw : s.w_ix = 0 ∧ s.w_iy = 0 ∧ s.w_iz = 0 ∧
          s.w_jx = 0 ∧ s.w_jy = 0 ∧ s.w_jz = 0) :
    ∀ k : ℕ,
      ((collideStep p)^[k] s).v_ix = s.v_ix ∧
      ((collideStep p)^[k] s).v_jx = s.v_jx ∧
      ((collideStep p)^[k] s).v_iy = s.v_iy - k * (p.deltaP / p.M) ∧
      ((collideStep p)^[k] s).v_jy = s.v_jy + k * (p.deltaP / p.M) ∧
      ((collideStep p)^[k] s).w_ix = 0 ∧
      ((collideStep p)^[k] s).w_iy = 0 ∧
      ((collideStep p)^[k] s).w_iz = 0 ∧
      ((collideStep p)^[k] s).w_jx = 0 ∧
      ((collideStep p)^[k] s).w_jy = 0 ∧
      ((collideStep p)^[k] s).w_jz = 0 := by
  intro k
  induction k with
  | zero =>
    exact ⟨rfl, rfl, by simp, by simp, hw.1, hw.2.1, hw.2.2.1, hw.2.2.2.1,
      hw.2.2.2.2.1, hw.2.2.2.2.2⟩
  | succ n ih =>
    obtain ⟨h1, h2, h3, h4, h5, h6, h7, h8, h9, h10⟩ := ih
    have hxk : ((collideStep p)^[n] s).v_ix = ((collideStep p)^[n] s).v_jx := by
      rw [h1, h2, hx]
    have hstep := collideStep_friction_free p ((collideStep p)^[n] s)
      hxk h5 h6 h7 h8 h9 h10
    rw [Function.iterate_succ_apply']
    refine ⟨?_, ?_, ?_, ?_, ?_, ?_, ?_, ?_, ?_, ?_⟩
    · rw [hstep.1, h1]
    · rw [hstep.2.1, h2]
    · rw [hstep.2.2.1, h3]
      push_cast
      ring
    · rw [hstep.2.2.2.1, h4]
      push_cast
      ring
    · exact hstep.2.2.2.2.1
    · exact hstep.2.2.2.2.2.1
    · exact hstep.2.2.2.2.2.2.1
    · exact hstep.2.2.2.2.2.2.2.1
    · exact hstep.2.2.2.2.2.2.2.2.1
    · exact hstep.2.2.2.2.2.2.2.2.2.1

/-- The per-step work increment in the friction-free regime. -/
lemma iterate_friction_free_W (p : CollideParams) (s : LoopState)
    (hx : s.v_ix = s.v_jx)
    (hw : s.w_ix = 0 ∧ s.w_iy = 0 ∧ s.w_iz = 0 ∧
          s.w_jx = 0 ∧ s.w_jy = 0 ∧ s.w_jz = 0) (k : ℕ) :
    ((collideStep p)^[k + 1] s).W = ((collideStep p)^[k] s).W +
      1 / 2 * p.deltaP *
        |2 * (s.v_ijy + 2 * k * (p.deltaP / p.M)) + 2 * (p.deltaP / p.M)| := by
  obtain ⟨h1, h2, h3, h4, h5, h6, h7, h8, h9, h10⟩ :=
    iterate_friction_free p s hx hw k
  have hxk : ((collideStep p)^[k] s).v_ix = ((collideStep p)^[k] s).v_jx := by
    rw [h1, h2, hx]
  have hstep := collideStep_friction_free p ((collideStep p)^[k] s)
    hxk h5 h6 h7 h8 h9 h10
  rw [Function.iterate_succ_apply', hstep.2.2.2.2.2.2.2.2.2.2.1]
  have hv : ((collideStep p)^[k] s).v_ijy =
      s.v_ijy + 2 * k * (p.deltaP / p.M) := by
    unfold LoopState.v_ijy
    rw [h3, h4]
    ring
  rw [hv]

/-- Separation velocity along the friction-free iteration. -/
lemma iterate_friction_free_v (p : CollideParams) (s : LoopState)
    (hx : s.v_ix = s.v_jx)
    (hw : s.w_ix = 0 ∧ s.w_iy = 0 ∧ s.w_iz = 0 ∧
          s.w_jx = 0 ∧ s.w_jy = 0 ∧ s.w_jz = 0) (k : ℕ) :
    ((collideStep p)^[k] s).v_ijy =
      s.v_ijy + 2 * k * (p.deltaP / p.M) := by
  obtain ⟨h1, h2, h3, h4, h5, h6, h7, h8, h9, h10⟩ :=
    iterate_friction_free p s hx hw k
  unfold LoopState.v_ijy
  rw [h3, h4]
  ring

/-- Exact telescoped work along the compression phase: while the
separation velocity stays nonpositive, the accumulated work equals
`M/4 * (v0^2 - v_k^2)`. -/
lemma headOn_W_compress (p : CollideParams) (s : LoopState) (hM : 0 < p.M)
    (hx : s.v_ix = s.v_jx)
    (hw : s.w_ix = 0 ∧ s.w_iy = 0 ∧ s.w_iz = 0 ∧
          s.w_jx = 0 ∧ s.w_jy = 0 ∧ s.w_jz = 0) :
    ∀ k : ℕ, (∀ j : ℕ, j ≤ k → s.v_ijy + 2 * j * (p.deltaP / p.M) ≤ 0) →
      ((collideStep p)^[k] s).W = s.W +
        p.M / 4 * (s.v_ijy ^ 2 -
          (s.v_ijy + 2 * k * (p.deltaP / p.M)) ^ 2) := by
  intro k
  induction k with
  | zero => intro _; simp
  | succ n ih =>
    intro hneg
    have hn := ih (fun j hj => hneg j (Nat.le_succ_of_le hj))
    rw [iterate_friction_free_W p s hx hw n, hn]
    have hvn : s.v_ijy + 2 * n * (p.deltaP / p.M) ≤ 0 :=
      hneg n (Nat.le_succ n)
    have hvn1 : s.v_ijy + 2 * (n + 1 : ℕ) * (p.deltaP / p.M) ≤ 0 :=
      hneg (n + 1) (le_refl _)
    push_cast at hvn1
    have habs : |2 * (s.v_ijy + 2 * n * (p.deltaP / p.M)) +
        2 * (p.deltaP / p.M)| =
        -(2 * (s.v_ijy + 2 * n * (p.deltaP / p.M)) + 2 * (p.deltaP / p.M)) :=
      abs_of_nonpos (by nlinarith)
    rw [habs]
    have hM0 : p.M ≠ 0 := ne_of_gt hM
    push_cast
    field_simp
    ring

/-- Exact telescoped work along the restitution phase: once the
separation velocity is nonnegative, the work grows by
`M/4 * (v_{k+j}^2 - v_k^2)`. -/
lemma headOn_W_restitution (p : CollideParams) (s : LoopState)
    (hM : 0 < p.M) (hdp : 0 ≤ p.deltaP)
    (hx : s.v_ix = s.v_jx)
    (hw : s.w_ix = 0 ∧ s.w_iy = 0 ∧ s.w_iz = 0 ∧
          s.w_jx = 0 ∧ s.w_jy = 0 ∧ s.w_jz = 0)
    (k : ℕ) (hpos : 0 ≤ s.v_ijy + 2 * k * (p.deltaP / p.M)) :
    ∀ j : ℕ, ((collideStep p)^[k + j] s).W = ((collideStep p)^[k] s).W +
      p.M / 4 * ((s.v_ijy + 2 * (k + j : ℕ) * (p.deltaP / p.M)) ^ 2 -
        (s.v_ijy + 2 * k * (p.deltaP / p.M)) ^ 2) := by
  have hh : 0 ≤ p.deltaP / p.M := div_nonneg hdp (le_of_lt hM)
  intro j
  induction j with
  | zero => simp
  | succ n ih =>
    have hstep := iterate_friction_free_W p s hx hw (k + n)
    have : k + (n + 1) = (k + n) + 1 := by omega
    rw [this, hstep, ih]
    have hvkn : 0 ≤ s.v_ijy + 2 * (k + n : ℕ) * (p.deltaP / p.M) := by
      push_cast
      push_cast at hpos
      nlinarith [mul_nonneg (Nat.cast_nonneg n : (0:ℝ) ≤ (n : ℝ)) hh]
    have habs : |2 * (s.v_ijy + 2 * (k + n : ℕ) * (p.deltaP / p.M)) +
        2 * (p.deltaP / p.M)| =
        2 * (s.v_ijy + 2 * (k + n : ℕ) * (p.deltaP / p.M)) +
          2 * (p.deltaP / p.M) :=
      abs_of_nonneg (by nlinarith)
    rw [habs]
    have hM0 : p.M ≠ 0 := ne_of_gt hM
    push_cast
    field_simp
    ring

/-- With both centers at the same height, the local y axis lies in the
table plane and is a unit vector. -/
lemma y_loc_unit (r_i r_j : Vec3) (hz : r_i.2.2 = r_j.2.2)
    (hdd : 0 < Vec3.dot (Vec3.sub r_j r_i) (Vec3.sub r_j r_i)) :
    (y_loc_of r_i r_j).1 ^ 2 + (y_loc_of r_i r_j).2.1 ^ 2 = 1 ∧
    (y_loc_of r_i r_j).2.2 = 0 := by
  have hdd_eq : Vec3.dot (Vec3.sub r_j r_i) (Vec3.sub r_j r_i) =
      (r_j.1 - r_i.1) ^ 2 + (r_j.2.1 - r_i.2.1) ^ 2 := by
    unfold Vec3.dot Vec3.sub
    dsimp only
    rw [hz]
    ring
  have hm2 : Real.sqrt (Vec3.dot (Vec3.sub r_j r_i) (Vec3.sub r_j r_i)) ^ 2 =
      Vec3.dot (Vec3.sub r_j r_i) (Vec3.sub r_j r_i) :=
    Real.sq_sqrt (le_of_lt hdd)
  have hm : 0 < Real.sqrt (Vec3.dot (Vec3.sub r_j r_i) (Vec3.sub r_j r_i)) :=
    Real.sqrt_pos.mpr hdd
  constructor
  · have hy1 : (y_loc_of r_i r_j).1 = (r_j.1 - r_i.1) /
        Real.sqrt (Vec3.dot (Vec3.sub r_j r_i) (Vec3.sub r_j r_i)) := rfl
    have hy2 : (y_loc_of r_i r_j).2.1 = (r_j.2.1 - r_i.2.1) /
        Real.sqrt (Vec3.dot (Vec3.sub r_j r_i) (Vec3.sub r_j r_i)) := rfl
    rw [hy1, hy2, div_pow, div_pow, div_add_div_same,
      div_eq_one_iff_eq (by positivity), hm2, hdd_eq]
  · show (r_j.2.2 - r_i.2.2) /
        Real.sqrt (Vec3.dot (Vec3.sub r_j r_i) (Vec3.sub r_j r_i)) = 0
    rw [hz, sub_self, zero_div]

/-- The local x axis in components: `(y2, -y1, 0)`. -/
lemma x_loc_components (r_i r_j : Vec3) :
    x_loc_of r_i r_j = ((y_loc_of r_i r_j).2.1, -(y_loc_of r_i r_j).1, 0) := by
  unfold x_loc_of Vec3.cross z_loc
  dsimp only
  norm_num

/-- Orthonormal decomposition of a planar vector over the local frame. -/
lemma planar_norm_decomp (r_i r_j v : Vec3) (hz : r_i.2.2 = r_j.2.2)
    (hdd : 0 < Vec3.dot (Vec3.sub r_j r_i) (Vec3.sub r_j r_i))
    (hv : v.2.2 = 0) :
    Vec3.dot v v = Vec3.dot v (x_loc_of r_i r_j) ^ 2 +
      Vec3.dot v (y_loc_of r_i r_j) ^ 2 := by
  obtain ⟨hunit, hy3⟩ := y_loc_unit r_i r_j hz hdd
  rw [x_loc_components]
  unfold Vec3.dot
  dsimp only
  rw [hv, hy3]
  ring_nf
  nlinarith [hunit]

/-- Norm of an output vector `vx * x_loc + vy * y_loc + vz * z_loc`. -/
lemma output_norm (r_i r_j : Vec3) (vx vy vz : ℝ)
    (hz : r_i.2.2 = r_j.2.2)
    (hdd : 0 < Vec3.dot (Vec3.sub r_j r_i) (Vec3.sub r_j r_i)) :
    Vec3.dot
      (Vec3.add3 (Vec3.smul vx (x_loc_of r_i r_j))
        (Vec3.smul vy (y_loc_of r_i r_j)) (Vec3.smul vz z_loc))
      (Vec3.add3 (Vec3.smul vx (x_loc_of r_i r_j))
        (Vec3.smul vy (y_loc_of r_i r_j)) (Vec3.smul vz z_loc)) =
      vx ^ 2 + vy ^ 2 + vz ^ 2 := by
  obtain ⟨hunit, hy3⟩ := y_loc_unit r_i r_j hz hdd
  rw [x_loc_components]
  unfold Vec3.dot Vec3.add3 Vec3.smul z_loc
  dsimp only
  rw [hy3]
  ring_nf
  nlinarith [hunit]

lemma dot_zero_left (b : Vec3) : Vec3.dot (0, 0, 0) b = 0 := by
  unfold Vec3.dot
  norm_num

lemma dot_sub_left (a b c : Vec3) :
    Vec3.dot (Vec3.sub a b) c = Vec3.dot a c - Vec3.dot b c := by
  unfold Vec3.dot Vec3.sub
  ring

lemma dot_smul_left (t : ℝ) (a b : Vec3) :
    Vec3.dot (Vec3.smul t a) b = t * Vec3.dot a b := by
  unfold Vec3.dot Vec3.smul
  ring

/-- Arithmetic for the exit-speed bound, first case. -/
lemma headOn_exit_arith1 (V dh e N : ℝ) (hV : 0 < V) (he0 : 0 ≤ e)
    (hN : 0 < N) (hNe : 5 * (1 + e) ≤ 2 * (1 - e) * N)
    (hdh : dh = (1 + e) * V / (2 * N)) : 2 * dh ≤ V := by
  rw [hdh]
  have hrw : 2 * ((1 + e) * V / (2 * N)) = 2 * ((1 + e) * V) / (2 * N) := by
    ring
  rw [hrw, div_le_iff (by linarith : (0:ℝ) < 2 * N)]
  have h1 := mul_le_mul_of_nonneg_right hNe (le_of_lt hV)
  have h2 : 0 ≤ e * N * V :=
    mul_nonneg (mul_nonneg he0 (le_of_lt hN)) (le_of_lt hV)
  have h3 : 0 ≤ e * V := mul_nonneg he0 (le_of_lt hV)
  nlinarith [h1, h2, h3, hV]

/-- Arithmetic for the exit-speed bound, second case. -/
lemma headOn_exit_arith2 (V dh e N : ℝ) (hV : 0 < V) (he0 : 0 ≤ e)
    (hN : 0 < N) (hNe : 5 * (1 + e) ≤ 2 * (1 - e) * N)
    (hdh : dh = (1 + e) * V / (2 * N)) : e * V + 5 * dh ≤ V := by
  have h5 : 5 * dh ≤ (1 - e) * V := by
    rw [hdh]
    have hrw : 5 * ((1 + e) * V / (2 * N)) = 5 * ((1 + e) * V) / (2 * N) := by
      ring
    rw [hrw, div_le_iff (by linarith : (0:ℝ) < 2 * N)]
    nlinarith [mul_le_mul_of_nonneg_right hNe (le_of_lt hV)]
  linarith

/-- From the restitution-phase work bound to the velocity-square bound. -/
lemma headOn_wq_to_vsq (M wc Wq vq vm V dh e : ℝ) (hM : 0 < M)
    (hwc : wc ≤ M / 4 * V ^ 2 + M * dh ^ 2)
    (hWq : Wq = wc + M / 4 * (vq ^ 2 - vm ^ 2))
    (hlt : Wq < (1 + e ^ 2) * wc)
    (hvm : vm ^ 2 ≤ 4 * dh ^ 2) (he1 : e ^ 2 ≤ 1) (he0 : 0 ≤ e) :
    vq ^ 2 < e ^ 2 * V ^ 2 + 8 * dh ^ 2 := by
  have h1 : M / 4 * (vq ^ 2 - vm ^ 2) < e ^ 2 * wc := by
    linarith only [hWq, hlt]
  have h2 : e ^ 2 * wc ≤ e ^ 2 * (M / 4 * V ^ 2 + M * dh ^ 2) :=
    mul_le_mul_of_nonneg_left hwc (sq_nonneg e)
  by_contra hcon
  push_neg at hcon
  have h3 : e ^ 2 * (M * dh ^ 2) ≤ 1 * (M * dh ^ 2) :=
    mul_le_mul_of_nonneg_right he1
      (mul_nonneg (le_of_lt hM) (sq_nonneg dh))
  have h4 : M / 4 * (e ^ 2 * V ^ 2 + 8 * dh ^ 2) ≤ M / 4 * vq ^ 2 :=
    mul_le_mul_of_nonneg_left hcon (by linarith)
  have h5 : M / 4 * vm ^ 2 ≤ M / 4 * (4 * dh ^ 2) :=
    mul_le_mul_of_nonneg_left hvm (by linarith)
  linarith only [h1, h2, h3, h4, h5]

/-- A nonnegative number below `2c` has square at most `4c^2`. -/
lemma sq_le_four_sq (x c : ℝ) (h1 : 0 ≤ x) (h2 : x ≤ 2 * c) :
    x ^ 2 ≤ 4 * c ^ 2 := by nlinarith

/-- From the square bound back to the velocity bound. -/
lemma headOn_vq_bound (vq V dh e : ℝ) (hq0 : 0 ≤ vq)
    (hsq : vq ^ 2 < e ^ 2 * V ^ 2 + 8 * dh ^ 2) (he0 : 0 ≤ e) (hV : 0 < V)
    (hdh0 : 0 ≤ dh) : vq ≤ e * V + 3 * dh := by
  by_contra hcon
  push_neg at hcon
  have hrhs : 0 ≤ e * V + 3 * dh := by
    have := mul_nonneg he0 (le_of_lt hV)
    linarith
  nlinarith [mul_nonneg (mul_nonneg he0 (le_of_lt hV)) hdh0]

/-- A nonnegative number bounded by `V` has square at most `V^2`. -/
lemma sq_le_sq_of_nonneg_le (x V : ℝ) (h0 : 0 ≤ x) (h1 : x ≤ V) :
    x ^ 2 ≤ V ^ 2 := by nlinarith

/-- Energy comparison under a fixed velocity sum and a shrinking
velocity difference. -/
lemma headOn_energy_key (a0 b0 an bn : ℝ) (hsum : an + bn = a0 + b0)
    (hsq : (bn - an) ^ 2 ≤ (b0 - a0) ^ 2) :
    an ^ 2 + bn ^ 2 ≤ a0 ^ 2 + b0 ^ 2 := by
  have h1 : 2 * (an ^ 2 + bn ^ 2) = (an + bn) ^ 2 + (bn - an) ^ 2 := by ring
  have h2 : 2 * (a0 ^ 2 + b0 ^ 2) = (a0 + b0) ^ 2 + (b0 - a0) ^ 2 := by ring
  rw [hsum] at h1
  linarith only [h1, h2, hsq]

set_option maxHeartbeats 1000000 in
/-- C7 (amended): energy is not non-increasing for every pair of
pre-collision states (see the counterexample: the loop applies its
impulse scheme even to separating balls and injects energy); for the
head-on family — both balls spinless, planar velocities, relative
velocity along the line of centers with the balls approaching — and
physically meaningful parameters with at least
`5 * (1 + e_b) / (2 * (1 - e_b))` impulse steps, `collide_balls`
terminates and the summed translational-plus-rotational energy of the
two balls after the call is at most their summed energy before it. -/
theorem collide_balls_head_on_energy_nonincreasing
    (r_i v_i r_j v_j : Vec3) (R M u_s1 u_s2 u_b e_b N t : ℝ)
    (hz : r_i.2.2 = r_j.2.2) (hne : r_i ≠ r_j)
    (hvzi : v_i.2.2 = 0) (hvzj : v_j.2.2 = 0)
    (hrel : Vec3.sub v_i v_j = Vec3.smul t (Vec3.sub r_j r_i)) (ht : 0 < t)
    (hM : 0 < M) (hs1 : 0 ≤ u_s1) (hs2 : 0 ≤ u_s2) (hub : 0 ≤ u_b)
    (hfric : u_b * (u_s1 + u_s2) < 2) (heb : 0 ≤ e_b) (hN : 0 < N)
    (hNe : 5 * (1 + e_b) ≤ 2 * (1 - e_b) * N) :
    (∃ fuel out, collide_balls r_i v_i (0, 0, 0) r_j v_j (0, 0, 0) R M u_s1
        u_s2 u_b e_b none N fuel = some out) ∧
    ∀ fuel out, collide_balls r_i v_i (0, 0, 0) r_j v_j (0, 0, 0) R M u_s1
        u_s2 u_b e_b none N fuel = some out →
      ballEnergy M R out.1 out.2.1 + ballEnergy M R out.2.2.1 out.2.2.2 ≤
        ballEnergy M R v_i (0, 0, 0) + ballEnergy M R v_j (0, 0, 0) := by
  have he1 : e_b < 1 := by nlinarith
  -- geometry of the line of centers
  have hdd : 0 < Vec3.dot (Vec3.sub r_j r_i) (Vec3.sub r_j r_i) := by
    have h0 : 0 ≤ Vec3.dot (Vec3.sub r_j r_i) (Vec3.sub r_j r_i) := by
      unfold Vec3.dot
      nlinarith [mul_self_nonneg (Vec3.sub r_j r_i).1,
        mul_self_nonneg (Vec3.sub r_j r_i).2.1,
        mul_self_nonneg (Vec3.sub r_j r_i).2.2]
    rcases eq_or_lt_of_le h0 with heq | hlt
    · exfalso
      apply hne
      unfold Vec3.dot at heq
      have h1 : (Vec3.sub r_j r_i).1 = 0 := by
        nlinarith [mul_self_nonneg (Vec3.sub r_j r_i).1,
          mul_self_nonneg (Vec3.sub r_j r_i).2.1,
          mul_self_nonneg (Vec3.sub r_j r_i).2.2]
      have h2 : (Vec3.sub r_j r_i).2.1 = 0 := by
        nlinarith [mul_self_nonneg (Vec3.sub r_j r_i).1,
          mul_self_nonneg (Vec3.sub r_j r_i).2.1,
          mul_self_nonneg (Vec3.sub r_j r_i).2.2]
      have h1' : r_i.1 = r_j.1 := by
        have : r_j.1 - r_i.1 = 0 := h1
        linarith
      have h2' : r_i.2.1 = r_j.2.1 := by
        have : r_j.2.1 - r_i.2.1 = 0 := h2
        linarith
      exact Prod.ext h1' (Prod.ext h2' hz)
    · exact hlt
  have hm : 0 < Real.sqrt (Vec3.dot (Vec3.sub r_j r_i) (Vec3.sub r_j r_i)) :=
    Real.sqrt_pos.mpr hdd
  have hm2 : Real.sqrt (Vec3.dot (Vec3.sub r_j r_i) (Vec3.sub r_j r_i)) ^ 2 =
      Vec3.dot (Vec3.sub r_j r_i) (Vec3.sub r_j r_i) :=
    Real.sq_sqrt (le_of_lt hdd)
  set mg := Real.sqrt (Vec3.dot (Vec3.sub r_j r_i) (Vec3.sub r_j r_i)) with hmg
  set s0 := collideInitial r_i v_i (0, 0, 0) r_j v_j (0, 0, 0) with hs0
  set p := collideParamsOf R M u_s1 u_s2 u_b e_b none N s0 with hp
  -- local components of the initial state
  have hd1 : (Vec3.sub r_j r_i).1 = r_j.1 - r_i.1 := rfl
  have hd2 : (Vec3.sub r_j r_i).2.1 = r_j.2.1 - r_i.2.1 := rfl
  have hd3 : (Vec3.sub r_j r_i).2.2 = r_j.2.2 - r_i.2.2 := rfl
  have hy1 : (y_loc_of r_i r_j).1 = (r_j.1 - r_i.1) / mg := rfl
  have hy2 : (y_loc_of r_i r_j).2.1 = (r_j.2.1 - r_i.2.1) / mg := rfl
  have hy3 : (y_loc_of r_i r_j).2.2 = (r_j.2.2 - r_i.2.2) / mg := rfl
  have hdotdx : Vec3.dot (Vec3.sub r_j r_i) (x_loc_of r_i r_j) = 0 := by
    rw [x_loc_components]
    unfold Vec3.dot
    dsimp only
    rw [hd1, hd2, hd3, hy1, hy2]
    ring
  have hdotdy : Vec3.dot (Vec3.sub r_j r_i) (y_loc_of r_i r_j) = mg := by
    unfold Vec3.dot
    rw [hd1, hd2, hd3, hy1, hy2, hy3]
    have hD : (r_j.1 - r_i.1) * (r_j.1 - r_i.1) +
        (r_j.2.1 - r_i.2.1) * (r_j.2.1 - r_i.2.1) +
        (r_j.2.2 - r_i.2.2) * (r_j.2.2 - r_i.2.2) = mg ^ 2 := by
      rw [hm2]
      unfold Vec3.dot
      rw [hd1, hd2, hd3]
    have hcollect : (r_j.1 - r_i.1) * ((r_j.1 - r_i.1) / mg) +
        (r_j.2.1 - r_i.2.1) * ((r_j.2.1 - r_i.2.1) / mg) +
        (r_j.2.2 - r_i.2.2) * ((r_j.2.2 - r_i.2.2) / mg) =
        ((r_j.1 - r_i.1) * (r_j.1 - r_i.1) +
          (r_j.2.1 - r_i.2.1) * (r_j.2.1 - r_i.2.1) +
          (r_j.2.2 - r_i.2.2) * (r_j.2.2 - r_i.2.2)) / mg := by ring
    rw [hcollect, hD, pow_two, mul_div_assoc, div_self (ne_of_gt hm),
      mul_one]
  have hx0 : s0.v_ix = s0.v_jx := by
    have hsub : s0.v_ix - s0.v_jx =
        Vec3.dot (Vec3.sub v_i v_j) (x_loc_of r_i r_j) := by
      rw [dot_sub_left]
      rfl
    rw [hrel, dot_smul_left, hdotdx, mul_zero] at hsub
    linarith [hsub]
  have hw0 : s0.w_ix = 0 ∧ s0.w_iy = 0 ∧ s0.w_iz = 0 ∧
      s0.w_jx = 0 ∧ s0.w_jy = 0 ∧ s0.w_jz = 0 := by
    refine ⟨dot_zero_left _, dot_zero_left _, dot_zero_left _,
      dot_zero_left _, dot_zero_left _, dot_zero_left _⟩
  have hv0 : s0.v_ijy = -(t * mg) := by
    have hsub : s0.v_ijy = -Vec3.dot (Vec3.sub v_i v_j) (y_loc_of r_i r_j) := by
      rw [dot_sub_left]
      unfold LoopState.v_ijy
      show s0.v_jy - s0.v_iy = -(s0.v_iy - s0.v_jy)
      ring
    rw [hrel, dot_smul_left, hdotdy] at hsub
    exact hsub
  have hV : 0 < t * mg := mul_pos ht hm
  have hv0neg : s0.v_ijy < 0 := by rw [hv0]; linarith
  have hdelta : p.deltaP = 1 / 2 * (1 + e_b) * M * (t * mg) / N := by
    show 1 / 2 * (1 + e_b) * M * |s0.v_ijy| / N = _
    rw [hv0, abs_neg, abs_of_pos hV]
  have hdp : 0 < p.deltaP := by
    rw [hdelta]
    have h1e : 0 < 1 + e_b := by linarith
    positivity
  have hMp : p.M = M := rfl
  have hh_eq : p.deltaP / p.M = (1 + e_b) * (t * mg) / (2 * N) := by
    rw [hMp, hdelta]
    field_simp
    ring
  have hh : 0 < p.deltaP / p.M := by
    rw [hh_eq]
    have h1e : 0 < 1 + e_b := by linarith
    positivity
  constructor
  · obtain ⟨fuel, hsome⟩ := loop_terminates p hM hs1 hs2 hub hdp hfric s0
    obtain ⟨sf, hsf⟩ := Option.isSome_iff_exists.mp hsome
    refine ⟨fuel, collideOutput r_i r_j sf, ?_⟩
    unfold collide_balls
    rw [← hs0, ← hp, hsf]
  · intro fuel out hrun
    unfold collide_balls at hrun
    rw [← hs0, ← hp] at hrun
    cases hres : loopFuel p fuel s0 with
    | none => rw [hres] at hrun; exact absurd hrun (by simp)
    | some sf =>
      rw [hres] at hrun
      simp only [Option.some.injEq] at hrun
      subst hrun
      obtain ⟨n, hnfuel, hall, hnot, htn⟩ := loopFuel_some p fuel s0 sf hres
      have hv := iterate_friction_free_v p s0 hx0 hw0
      have hWc0 : s0.W_c = none := rfl
      have hW0 : s0.W = 0 := rfl
      have hVe : p.deltaP / p.M = (1 + e_b) * (t * mg) / (2 * N) := hh_eq
      -- exit conditions
      have hnot2 := hnot
      unfold loopCond at hnot2
      rw [not_or] at hnot2
      have hvn0 : 0 ≤ sf.v_ijy := by
        rw [htn]
        exact le_of_not_lt hnot2.1
      -- the crossing index m of the compression phase
      rcases W_c_invariant p s0 hWc0 n with ⟨hnone, _⟩ |
        ⟨m, hm0, hmn, hWcm, hvm, hprev⟩
      · exfalso
        apply hnot
        unfold loopCond
        rw [hnone]
        exact Or.inr trivial
      obtain ⟨m', rfl⟩ := Nat.exists_eq_succ_of_ne_zero
        (Nat.pos_iff_ne_zero.mp hm0)
      have hvm1 : 0 < s0.v_ijy + 2 * (m' + 1 : ℕ) * (p.deltaP / p.M) := by
        rw [← hv (m' + 1)]
        exact hvm
      have hvm0 : s0.v_ijy + 2 * (m' : ℕ) * (p.deltaP / p.M) ≤ 0 := by
        rcases Nat.eq_zero_or_pos m' with hz' | hpos'
        · subst hz'
          push_cast
          linarith only [hv0neg]
        · have := hprev m' hpos' (Nat.lt_succ_self m')
          rw [hv m'] at this
          exact this
      -- work recorded at the end of compression
      have hneg : ∀ j : ℕ, j ≤ m' → s0.v_ijy + 2 * j * (p.deltaP / p.M) ≤ 0 := by
        intro j hj
        rcases Nat.eq_zero_or_pos j with hz' | hpos'
        · subst hz'
          push_cast
          linarith only [hv0neg]
        · have := hprev j hpos' (by omega)
          rw [hv j] at this
          exact this
      have hWm' : ((collideStep p)^[m'] s0).W =
          p.M / 4 * (s0.v_ijy ^ 2 - (s0.v_ijy + 2 * (m' : ℕ) * (p.deltaP / p.M)) ^ 2) := by
        have := headOn_W_compress p s0 hM hx0 hw0 m' hneg
        rw [hW0] at this
        rw [this]
        ring
      have hWm1 : ((collideStep p)^[m' + 1] s0).W =
          ((collideStep p)^[m'] s0).W + 1 / 2 * p.deltaP *
            |2 * (s0.v_ijy + 2 * (m' : ℕ) * (p.deltaP / p.M)) + 2 * (p.deltaP / p.M)| :=
        iterate_friction_free_W p s0 hx0 hw0 m'
      have habs_c : |2 * (s0.v_ijy + 2 * (m' : ℕ) * (p.deltaP / p.M)) + 2 * (p.deltaP / p.M)| ≤ 2 * (p.deltaP / p.M) := by
        rw [abs_le]
        constructor
        · push_cast at hvm1 ⊢
          linarith only [hvm1]
        · linarith only [hvm0]
      have hMne : p.M ≠ 0 := ne_of_gt hM
      have hdMh : p.deltaP = p.M * (p.deltaP / p.M) := by
        field_simp
      have hwc_ub : ((collideStep p)^[m' + 1] s0).W ≤
          p.M / 4 * (t * mg) ^ 2 + p.M * (p.deltaP / p.M) ^ 2 := by
        rw [hWm1, hWm']
        have h1 : 1 / 2 * p.deltaP *
            |2 * (s0.v_ijy + 2 * (m' : ℕ) * (p.deltaP / p.M)) + 2 * (p.deltaP / p.M)| ≤
            1 / 2 * (p.M * (p.deltaP / p.M)) * (2 * (p.deltaP / p.M)) := by
          rw [← hdMh]
          have hdp2 : 0 ≤ 1 / 2 * p.deltaP := by linarith only [hdp]
          calc 1 / 2 * p.deltaP *
              |2 * (s0.v_ijy + 2 * (m' : ℕ) * (p.deltaP / p.M)) + 2 * (p.deltaP / p.M)| ≤
              1 / 2 * p.deltaP * (2 * (p.deltaP / p.M)) :=
                mul_le_mul_of_nonneg_left habs_c hdp2
            _ = 1 / 2 * p.deltaP * (2 * (p.deltaP / p.M)) := rfl
        have h2 : p.M / 4 * s0.v_ijy ^ 2 = p.M / 4 * (t * mg) ^ 2 := by
          rw [hv0]
          ring
        have h3 : 0 ≤ p.M / 4 * (s0.v_ijy + 2 * (m' : ℕ) * (p.deltaP / p.M)) ^ 2 := by
          positivity
        have h4 : 1 / 2 * (p.M * (p.deltaP / p.M)) * (2 * (p.deltaP / p.M)) = p.M * (p.deltaP / p.M) ^ 2 := by ring
        linarith only [h1, h2, h3, h4]
      -- restitution: n = (m'+1) + j
      obtain ⟨j, rfl⟩ := Nat.exists_eq_add_of_le hmn
      have hWres := headOn_W_restitution p s0 hM (le_of_lt hdp) hx0 hw0
        (m' + 1) (le_of_lt hvm1) j
      -- the final separation velocity is bounded by the approach speed
      have hvnV : s0.v_ijy + 2 * ((m' + 1 + j : ℕ) : ℝ) * (p.deltaP / p.M) ≤ t * mg := by
        rcases Nat.eq_zero_or_pos j with hj0 | hjpos
        · subst hj0
          have h2step : 2 * (p.deltaP / p.M) ≤ t * mg :=
            headOn_exit_arith1 (t * mg) (p.deltaP / p.M) e_b N hV heb hN hNe hVe
          push_cast
          push_cast at hvm0
          linarith only [hvm0, h2step]
        · -- q = m' + 1 + (j-1) is the last iterate before exit
          obtain ⟨j', rfl⟩ := Nat.exists_eq_succ_of_ne_zero
            (Nat.pos_iff_ne_zero.mp hjpos)
          have hq_lt : m' + 1 + j' < m' + 1 + (j' + 1) := by omega
          have hcond_q := hall (m' + 1 + j') hq_lt
          -- W_c is already recorded at the crossing
          have hWcm1 : ((collideStep p)^[m' + 1] s0).W_c =
              some (((collideStep p)^[m' + 1] s0).W) := by
            rcases W_c_invariant p s0 hWc0 (m' + 1) with ⟨hnone1, hall1⟩ |
              ⟨m2, hm20, hm2le, hWcm2, hvm2, hprev2⟩
            · exfalso
              have := hall1 (m' + 1) (by omega) (le_refl _)
              rw [hv (m' + 1)] at this
              linarith [hvm1]
            · have hm2eq : m2 = m' + 1 := by
                by_contra hneq
                have hm2lt : m2 < m' + 1 := by omega
                have := hprev m2 hm20 hm2lt
                exact absurd hvm2 (not_lt.mpr this)
              subst hm2eq
              exact hWcm2
          have hWc_q : ((collideStep p)^[m' + 1 + j'] s0).W_c =
              some (((collideStep p)^[m' + 1] s0).W) := by
            have := iterate_W_c_persist p ((collideStep p)^[m' + 1] s0)
              (((collideStep p)^[m' + 1] s0).W) hWcm1 j'
            rw [← Function.iterate_add_apply] at this
            have heq : j' + (m' + 1) = m' + 1 + j' := by omega
            rw [heq] at this
            exact this
          have hvq_pos : 0 < s0.v_ijy + 2 * ((m' + 1 + j' : ℕ) : ℝ) * (p.deltaP / p.M) := by
            have hjdh : 0 ≤ (j' : ℝ) * (p.deltaP / p.M) :=
              mul_nonneg (Nat.cast_nonneg j') (le_of_lt hh)
            push_cast
            push_cast at hvm1
            linarith only [hvm1, hjdh]
          have hWq_lt : ((collideStep p)^[m' + 1 + j'] s0).W <
              (1 + p.e_b ^ 2) * ((collideStep p)^[m' + 1] s0).W := by
            unfold loopCond at hcond_q
            rw [hWc_q] at hcond_q
            rcases hcond_q with hlt | hlt
            · exfalso
              rw [hv (m' + 1 + j')] at hlt
              linarith only [hlt, hvq_pos]
            · exact hlt
          have hWq_eq := headOn_W_restitution p s0 hM (le_of_lt hdp) hx0 hw0
            (m' + 1) (le_of_lt hvm1) j'
          -- deduce the bound on v_q
          have he2 : p.e_b = e_b := rfl
          have heb2 : e_b ^ 2 ≤ 1 := by
            have hmul : e_b * e_b ≤ 1 * 1 :=
              mul_le_mul (le_of_lt he1) (le_of_lt he1) heb zero_le_one
            have hpow : e_b ^ 2 = e_b * e_b := by ring
            linarith only [hmul, hpow]
          have hvm_ub : s0.v_ijy + 2 * ((m' + 1 : ℕ) : ℝ) * (p.deltaP / p.M) ≤ 2 * (p.deltaP / p.M) := by
            push_cast
            push_cast at hvm0
            linarith only [hvm0]
          have h4 : (s0.v_ijy + 2 * ((m' + 1 : ℕ) : ℝ) * (p.deltaP / p.M)) ^ 2 ≤
              4 * (p.deltaP / p.M) ^ 2 :=
            sq_le_four_sq _ (p.deltaP / p.M) (le_of_lt hvm1) hvm_ub
          have hsq_q : (s0.v_ijy + 2 * ((m' + 1 + j' : ℕ) : ℝ) * (p.deltaP / p.M)) ^ 2 <
              e_b ^ 2 * (t * mg) ^ 2 + 8 * (p.deltaP / p.M) ^ 2 := by
            rw [hWq_eq] at hWq_lt
            rw [he2] at hWq_lt
            exact headOn_wq_to_vsq p.M (((collideStep p)^[m' + 1] s0).W)
              (((collideStep p)^[m' + 1] s0).W + p.M / 4 *
                ((s0.v_ijy + 2 * ((m' + 1 + j' : ℕ) : ℝ) *
                  (p.deltaP / p.M)) ^ 2 -
                 (s0.v_ijy + 2 * ((m' + 1 : ℕ) : ℝ) *
                  (p.deltaP / p.M)) ^ 2))
              (s0.v_ijy + 2 * ((m' + 1 + j' : ℕ) : ℝ) * (p.deltaP / p.M))
              (s0.v_ijy + 2 * ((m' + 1 : ℕ) : ℝ) * (p.deltaP / p.M))
              (t * mg) (p.deltaP / p.M) e_b hM hwc_ub rfl hWq_lt h4 heb2 heb
          have hvq_ub : s0.v_ijy + 2 * ((m' + 1 + j' : ℕ) : ℝ) * (p.deltaP / p.M) ≤
              e_b * (t * mg) + 3 * (p.deltaP / p.M) :=
            headOn_vq_bound _ (t * mg) (p.deltaP / p.M) e_b (le_of_lt hvq_pos) hsq_q heb
              hV (le_of_lt hh)
          have h5step : e_b * (t * mg) + 5 * (p.deltaP / p.M) ≤ t * mg :=
            headOn_exit_arith2 (t * mg) (p.deltaP / p.M) e_b N hV heb hN hNe hVe
          push_cast
          push_cast at hvq_ub
          linarith only [hvq_ub, h5step, hh]
      -- assemble the energy bound
      have hffn := iterate_friction_free p s0 hx0 hw0 (m' + 1 + j)
      obtain ⟨g1, g2, g3, g4, g5, g6, g7, g8, g9, g10⟩ := hffn
      have hsq : (sf.v_jy - sf.v_iy) ^ 2 ≤ (s0.v_jy - s0.v_iy) ^ 2 := by
        have hvn_eq : sf.v_ijy = s0.v_ijy +
            2 * ((m' + 1 + j : ℕ) : ℝ) * (p.deltaP / p.M) := by
          rw [htn]
          exact hv (m' + 1 + j)
        have h1 : sf.v_ijy ≤ t * mg := by rw [hvn_eq]; exact hvnV
        have h2 : (0:ℝ) ≤ sf.v_ijy := hvn0
        have h3 : s0.v_ijy = -(t * mg) := hv0
        unfold LoopState.v_ijy at h1 h2 h3
        have h4 : (sf.v_jy - sf.v_iy) ^ 2 ≤ (t * mg) ^ 2 :=
          sq_le_sq_of_nonneg_le _ _ h2 h1
        rw [h3]
        calc (sf.v_jy - sf.v_iy) ^ 2 ≤ (t * mg) ^ 2 := h4
          _ = (-(t * mg)) ^ 2 := by ring
      have hsum : sf.v_iy + sf.v_jy = s0.v_iy + s0.v_jy := by
        rw [htn, g3, g4]
        ring
      have hkey : sf.v_iy ^ 2 + sf.v_jy ^ 2 ≤ s0.v_iy ^ 2 + s0.v_jy ^ 2 :=
        headOn_energy_key s0.v_iy s0.v_jy sf.v_iy sf.v_jy hsum hsq
      -- energies via the orthonormal frame
      have hEi : Vec3.dot v_i v_i = s0.v_ix ^ 2 + s0.v_iy ^ 2 :=
        planar_norm_decomp r_i r_j v_i hz hdd hvzi
      have hEj : Vec3.dot v_j v_j = s0.v_jx ^ 2 + s0.v_jy ^ 2 :=
        planar_norm_decomp r_i r_j v_j hz hdd hvzj
      have hOut1 : Vec3.dot (collideOutput r_i r_j sf).1
          (collideOutput r_i r_j sf).1 = sf.v_ix ^ 2 + sf.v_iy ^ 2 + 0 ^ 2 :=
        output_norm r_i r_j sf.v_ix sf.v_iy 0 hz hdd
      have hOut2 : Vec3.dot (collideOutput r_i r_j sf).2.1
          (collideOutput r_i r_j sf).2.1 =
          sf.w_ix ^ 2 + sf.w_iy ^ 2 + sf.w_iz ^ 2 :=
        output_norm r_i r_j sf.w_ix sf.w_iy sf.w_iz hz hdd
      have hOut3 : Vec3.dot (collideOutput r_i r_j sf).2.2.1
          (collideOutput r_i r_j sf).2.2.1 =
          sf.v_jx ^ 2 + sf.v_jy ^ 2 + 0 ^ 2 :=
        output_norm r_i r_j sf.v_jx sf.v_jy 0 hz hdd
      have hOut4 : Vec3.dot (collideOutput r_i r_j sf).2.2.2
          (collideOutput r_i r_j sf).2.2.2 =
          sf.w_jx ^ 2 + sf.w_jy ^ 2 + sf.w_jz ^ 2 :=
        output_norm r_i r_j sf.w_jx sf.w_jy sf.w_jz hz hdd
      have hwzero : sf.w_ix = 0 ∧ sf.w_iy = 0 ∧ sf.w_iz = 0 ∧
          sf.w_jx = 0 ∧ sf.w_jy = 0 ∧ sf.w_jz = 0 := by
        rw [htn]
        exact ⟨g5, g6, g7, g8, g9, g10⟩
      have hvix : sf.v_ix = s0.v_ix := by rw [htn]; exact g1
      have hvjx : sf.v_jx = s0.v_jx := by rw [htn]; exact g2
      unfold ballEnergy
      rw [hOut1, hOut2, hOut3, hOut4, hEi, hEj, dot_zero_left]
      rw [hwzero.1, hwzero.2.1, hwzero.2.2.1, hwzero.2.2.2.1,
        hwzero.2.2.2.2.1, hwzero.2.2.2.2.2, hvix, hvjx]
      have hMk : 1 / 2 * M * (sf.v_iy ^ 2 + sf.v_jy ^ 2) ≤
          1 / 2 * M * (s0.v_iy ^ 2 + s0.v_jy ^ 2) :=
        mul_le_mul_of_nonneg_left hkey (by linarith only [hM])
      linarith only [hMk]

/-! ### A concrete energy-increasing run (separating balls) -/

/-- A concrete three-check run of the collision loop at the resolver's
default parameters (`u_s = 0.21`, `u_b = 0.05`, `e_b = 0.89`,
`deltaP = 0.5 * (1 + e_b) * M * |v_ijy| / N` with `N = 1000`) on a pair
of balls that is already separating at unit speed: the loop exits after
two iterations, having pushed the balls further apart. -/
lemma energy_ce_loop :
    loopFuel ⟨1, 1, 21/100, 21/100, 1/20, 89/100, 189/200000⟩ 3
      ⟨0, 0, 0, 1, 0, 0, 0, 0, 0, 0, 0, none⟩ =
    some ⟨0, -(189/100000), 0, 100189/100000, 0, 0, 0, 0, 0, 0,
      18935721/10000000000, some (37835721/40000000000)⟩ := by
  have h1 : collideStep ⟨1, 1, 21/100, 21/100, 1/20, 89/100, 189/200000⟩
      ⟨0, 0, 0, 1, 0, 0, 0, 0, 0, 0, 0, none⟩ =
      ⟨0, -(189/200000), 0, 200189/200000, 0, 0, 0, 0, 0, 0,
        37835721/40000000000, some (37835721/40000000000)⟩ := by
    norm_num [collideStep, impulses, LoopState.v_ijy, abs_of_pos,
      LoopState.mk.injEq]
  have h2 : collideStep ⟨1, 1, 21/100, 21/100, 1/20, 89/100, 189/200000⟩
      ⟨0, -(189/200000), 0, 200189/200000, 0, 0, 0, 0, 0, 0,
        37835721/40000000000, some (37835721/40000000000)⟩ =
      ⟨0, -(189/100000), 0, 100189/100000, 0, 0, 0, 0, 0, 0,
        18935721/10000000000, some (37835721/40000000000)⟩ := by
    norm_num [collideStep, impulses, LoopState.v_ijy, abs_of_pos,
      LoopState.mk.injEq]
    simp
  have hc0 : loopCond ⟨1, 1, 21/100, 21/100, 1/20, 89/100, 189/200000⟩
      ⟨0, 0, 0, 1, 0, 0, 0, 0, 0, 0, 0, none⟩ := Or.inr trivial
  have hc1 : loopCond ⟨1, 1, 21/100, 21/100, 1/20, 89/100, 189/200000⟩
      ⟨0, -(189/200000), 0, 200189/200000, 0, 0, 0, 0, 0, 0,
        37835721/40000000000, some (37835721/40000000000)⟩ :=
    Or.inr (by norm_num)
  have hc2 : ¬loopCond ⟨1, 1, 21/100, 21/100, 1/20, 89/100, 189/200000⟩
      ⟨0, -(189/100000), 0, 100189/100000, 0, 0, 0, 0, 0, 0,
        18935721/10000000000, some (37835721/40000000000)⟩ := by
    norm_num [loopCond, LoopState.v_ijy]
  rw [show (3 : ℕ) = 2 + 1 from rfl, loopFuel, if_pos hc0, h1,
    show (2 : ℕ) = 1 + 1 from rfl, loopFuel, if_pos hc1, h2,
    show (1 : ℕ) = 0 + 1 from rfl, loopFuel, if_neg hc2]

/-- The same run through the `collide_balls` wrapper. -/
lemma energy_ce_collide :
    collide_balls (0, 0, 0) (0, 0, 0) (0, 0, 0) (0, 1, 0) (0, 1, 0)
      (0, 0, 0) 1 1 (21/100) (21/100) (1/20) (89/100) none 1000 3 =
    some ((0, -(189/100000), 0), (0, 0, 0), (0, 100189/100000, 0),
      (0, 0, 0)) := by
  have h := energy_ce_loop
  norm_num [collide_balls, collideInitial, collideParamsOf, collideOutput,
    y_loc_of, x_loc_of, LoopState.v_ijy, Vec3.sub, Vec3.dot, Vec3.div,
    Vec3.cross, Vec3.smul, Vec3.add3, z_loc, Real.sqrt_one, abs_of_pos]
    at h ⊢
  rw [h]
  norm_num

/-- C7 counterexample: a concrete pair of pre-collision states (the balls
already separating at unit speed, all parameters at the resolver's
defaults) for which `collide_balls` returns and the summed
translational-plus-rotational energy of the two balls strictly increases
across the call. -/
theorem collide_balls_energy_not_nonincreasing :
    ∃ out, collide_balls (0, 0, 0) (0, 0, 0) (0, 0, 0) (0, 1, 0) (0, 1, 0)
        (0, 0, 0) 1 1 (21/100) (21/100) (1/20) (89/100) none 1000 3 =
      some out ∧
      ballEnergy 1 1 (0, 0, 0) (0, 0, 0) +
          ballEnergy 1 1 (0, 1, 0) (0, 0, 0) <
        ballEnergy 1 1 out.1 out.2.1 +
          ballEnergy 1 1 out.2.2.1 out.2.2.2 := by
  refine ⟨_, energy_ce_collide, ?_⟩
  norm_num [ballEnergy, Vec3.dot]

/-- C7 witness: a concrete head-on approaching configuration for which
the amended energy statement applies. -/
theorem collide_balls_head_on_energy_nonincreasing_witness :
    Vec3.sub ((0, 1, 0) : Vec3) (0, 0, 0) =
      Vec3.smul 1 (Vec3.sub ((0, 1, 0) : Vec3) (0, 0, 0)) ∧
    (5 : ℝ) * (1 + 0) ≤ 2 * (1 - 0) * 5 ∧
    ((∃ fuel out, collide_balls (0, 0, 0) (0, 1, 0) (0, 0, 0) (0, 1, 0)
        (0, 0, 0) (0, 0, 0) 1 1 0 0 0 0 none 5 fuel = some out) ∧
     ∀ fuel out, collide_balls (0, 0, 0) (0, 1, 0) (0, 0, 0) (0, 1, 0)
        (0, 0, 0) (0, 0, 0) 1 1 0 0 0 0 none 5 fuel = some out →
       ballEnergy 1 1 out.1 out.2.1 + ballEnergy 1 1 out.2.2.1 out.2.2.2 ≤
         ballEnergy 1 1 (0, 1, 0) (0, 0, 0) +
           ballEnergy 1 1 (0, 0, 0) (0, 0, 0)) :=
  ⟨by norm_num [Vec3.sub, Vec3.smul], by norm_num,
   collide_balls_head_on_energy_nonincreasing (0, 0, 0) (0, 1, 0) (0, 1, 0)
     (0, 0, 0) 1 1 0 0 0 0 5 1 rfl (by simp [Prod.ext_iff]) rfl rfl
     (by norm_num [Vec3.sub, Vec3.smul]) (by norm_num) (by norm_num)
     (by norm_num) (by norm_num) (by norm_num) (by norm_num) (by norm_num)
     (by norm_num) (by norm_num)⟩

/-! ### Equivariance of the loop under the ball exchange (C8) -/

/-- The six impulse increments are equivariant under the ball exchange:
the ball-ball tangential impulse is unchanged, the normal-spin impulse
flips sign, and the two balls' cloth-friction impulses swap (negated,
since the local axes flip). -/
lemma impulses_swap (p : CollideParams) (s : LoopState)
    (d1 d2 dix diy djx djy : ℝ)
    (h : impulses p s = (d1, d2, dix, diy, djx, djy)) :
    impulses (swapParams p) (swapState s) =
      (d1, -d2, -djx, -djy, -dix, -diy) := by
  unfold impulses at h ⊢
  unfold swapParams swapState
  dsimp only at h ⊢
  simp only [show (-s.v_jx - -s.v_ix - p.R * (s.w_jz + s.w_iz)) =
      (s.v_ix - s.v_jx - p.R * (s.w_iz + s.w_jz)) from by ring,
    show (p.R * (-s.w_jx + -s.w_ix)) =
      (-(p.R * (s.w_ix + s.w_jx))) from by ring,
    show (-s.v_ix + p.R * -s.w_iy) =
      (-(s.v_ix + p.R * s.w_iy)) from by ring,
    show (-s.v_iy - p.R * -s.w_ix) =
      (-(s.v_iy - p.R * s.w_ix)) from by ring,
    show (-s.v_jx + p.R * -s.w_jy) =
      (-(s.v_jx + p.R * s.w_jy)) from by ring,
    show (-s.v_jy - p.R * -s.w_jx) =
      (-(s.v_jy - p.R * s.w_jx)) from by ring]
  simp only [neg_sq, abs_neg]
  simp only [show (-p.u_b * p.deltaP * -(p.R * (s.w_ix + s.w_jx))) =
      (-(-p.u_b * p.deltaP * (p.R * (s.w_ix + s.w_jx)))) from by ring]
  simp only [neg_div]
  set m := Real.sqrt ((s.v_ix - s.v_jx - p.R * (s.w_iz + s.w_jz)) ^ 2 +
    (p.R * (s.w_ix + s.w_jx)) ^ 2) with hm
  set mA := Real.sqrt ((s.v_ix + p.R * s.w_iy) ^ 2 +
    (s.v_iy - p.R * s.w_ix) ^ 2) with hmA
  set mC := Real.sqrt ((s.v_jx + p.R * s.w_jy) ^ 2 +
    (s.v_jy - p.R * s.w_jx) ^ 2) with hmC
  by_cases hc1 : m < 1e-16
  · rw [if_pos hc1] at h ⊢
    simp only [Prod.mk.injEq] at h
    obtain ⟨h1, h2, h3, h4, h5, h6⟩ := h
    subst h1 h2 h3 h4 h5 h6
    norm_num
  · rw [if_neg hc1] at h ⊢
    by_cases hc2 : |p.R * (s.w_ix + s.w_jx)| < 1e-16
    · rw [if_pos hc2] at h ⊢
      simp only [Prod.mk.injEq] at h
      obtain ⟨h1, h2, h3, h4, h5, h6⟩ := h
      subst h1 h2 h3 h4 h5 h6
      norm_num
    · rw [if_neg hc2] at h ⊢
      set d2e := -p.u_b * p.deltaP * (p.R * (s.w_ix + s.w_jx)) / m with hd2e
      by_cases hc3 : d2e > 0
      · have hc3' : ¬(-d2e > 0) := by simp only [gt_iff_lt]; linarith
        rw [if_pos hc3] at h
        rw [if_neg hc3']
        by_cases hg : mC = 0
        · rw [if_pos hg] at h ⊢
          simp only [Prod.mk.injEq] at h
          obtain ⟨h1, h2, h3, h4, h5, h6⟩ := h
          subst h1 h2 h3 h4 h5 h6
          norm_num
        · rw [if_neg hg] at h ⊢
          simp only [Prod.mk.injEq] at h
          obtain ⟨h1, h2, h3, h4, h5, h6⟩ := h
          subst h1 h2 h3 h4 h5 h6
          simp only [Prod.mk.injEq]
          exact ⟨trivial, trivial, by ring, by ring, by ring, by ring⟩
      · rw [if_neg hc3] at h
        by_cases hc4 : -d2e > 0
        · rw [if_pos hc4]
          by_cases hg : mA = 0
          · rw [if_pos hg] at h ⊢
            simp only [Prod.mk.injEq] at h
            obtain ⟨h1, h2, h3, h4, h5, h6⟩ := h
            subst h1 h2 h3 h4 h5 h6
            norm_num
          · rw [if_neg hg] at h ⊢
            simp only [Prod.mk.injEq] at h
            obtain ⟨h1, h2, h3, h4, h5, h6⟩ := h
            subst h1 h2 h3 h4 h5 h6
            simp only [Prod.mk.injEq]
            exact ⟨trivial, trivial, by ring, by ring, by ring, by ring⟩
        · have hd2z : d2e = 0 := by
            simp only [gt_iff_lt, not_lt] at hc3 hc4
            linarith
          rw [if_neg hc4]
          by_cases hgA : mA = 0
          · rw [if_pos hgA] at h
            simp only [Prod.mk.injEq] at h
            obtain ⟨h1, h2, h3, h4, h5, h6⟩ := h
            subst h1 h2 h3 h4 h5 h6
            by_cases hgC : mC = 0
            · rw [if_pos hgC]
              norm_num
            · rw [if_neg hgC]
              simp only [Prod.mk.injEq]
              refine ⟨trivial, trivial, ?_, ?_, ?_, ?_⟩ <;>
                simp only [hd2z, neg_zero] <;> ring
          · rw [if_neg hgA] at h
            simp only [Prod.mk.injEq] at h
            obtain ⟨h1, h2, h3, h4, h5, h6⟩ := h
            subst h1 h2 h3 h4 h5 h6
            by_cases hgC : mC = 0
            · rw [if_pos hgC]
              simp only [Prod.mk.injEq]
              refine ⟨trivial, trivial, ?_, ?_, ?_, ?_⟩ <;>
                simp only [hd2z, neg_zero] <;> ring
            · rw [if_neg hgC]
              simp only [Prod.mk.injEq]
              refine ⟨trivial, trivial, ?_, ?_, ?_, ?_⟩ <;>
                simp only [hd2z, neg_zero] <;> ring

/-- One loop iteration commutes with the ball exchange. -/
lemma collideStep_swap (p : CollideParams) (s : LoopState) :
    collideStep (swapParams p) (swapState s) = swapState (collideStep p s) := by
  have h : impulses p s = ((impulses p s).1, (impulses p s).2.1,
      (impulses p s).2.2.1, (impulses p s).2.2.2.1,
      (impulses p s).2.2.2.2.1, (impulses p s).2.2.2.2.2) := rfl
  have hsw := impulses_swap p s _ _ _ _ _ _ h
  unfold collideStep
  rw [hsw]
  unfold swapParams swapState
  dsimp only
  simp only [LoopState.mk.injEq]
  refine ⟨by ring, by ring, by ring, by ring, by ring, by ring, by ring,
    by ring, by ring, by ring, ?_, ?_⟩
  · congr 1
    ring
  · have harg : -s.v_iy + (p.deltaP + -(impulses p s).2.2.2.1) /
        p.M - (-s.v_jy + (-p.deltaP + -(impulses p s).2.2.2.2.2) / p.M) =
        s.v_jy + (p.deltaP + (impulses p s).2.2.2.2.2) / p.M -
          (s.v_iy + (-p.deltaP + (impulses p s).2.2.2.1) / p.M) := by
      ring
    rw [harg]
    congr 1
    ring

/-- The loop condition is invariant under the ball exchange. -/
lemma loopCond_swap (p : CollideParams) (s : LoopState) :
    loopCond (swapParams p) (swapState s) ↔ loopCond p s := by
  unfold loopCond LoopState.v_ijy swapParams swapState
  dsimp only
  rw [show -s.v_iy - -s.v_jy = s.v_jy - s.v_iy from by ring]

/-- The whole fuelled loop is equivariant under the ball exchange. -/
lemma loopFuel_swap (p : CollideParams) :
    ∀ (n : ℕ) (s : LoopState),
      loopFuel (swapParams p) n (swapState s) =
        Option.map swapState (loopFuel p n s) := by
  intro n
  induction n with
  | zero => intro s; rfl
  | succ m ih =>
    intro s
    rw [loopFuel, loopFuel]
    by_cases hc : loopCond p s
    · rw [if_pos hc, if_pos ((loopCond_swap p s).mpr hc), collideStep_swap]
      exact ih (collideStep p s)
    · rw [if_neg hc, if_neg (fun hcc => hc ((loopCond_swap p s).mp hcc))]
      rfl

/-- Exchanging the two balls flips the local frame, so the initial loop
state transforms by `swapState`. -/
lemma collideInitial_swap (r_i v_i w_i r_j v_j w_j : Vec3) :
    collideInitial r_j v_j w_j r_i v_i w_i =
      swapState (collideInitial r_i v_i w_i r_j v_j w_j) := by
  have hD : Vec3.dot (Vec3.sub r_i r_j) (Vec3.sub r_i r_j) =
      Vec3.dot (Vec3.sub r_j r_i) (Vec3.sub r_j r_i) := by
    unfold Vec3.dot Vec3.sub
    ring
  unfold collideInitial swapState x_loc_of y_loc_of
  rw [hD]
  simp only [LoopState.mk.injEq]
  unfold Vec3.dot Vec3.cross Vec3.div Vec3.sub z_loc
  dsimp only
  refine ⟨by ring, by ring, by ring, by ring, by ring, by ring, by ring,
    by ring, by ring, by ring, trivial, trivial⟩

/-- Exchanging the balls swaps (and negates nothing of) the resolved
`deltaP`, and swaps the two cloth-friction coefficients. -/
lemma collideParamsOf_swap (R M u_s1 u_s2 u_b e_b : ℝ) (dP : Option ℝ)
    (N : ℝ) (s0 : LoopState) :
    collideParamsOf R M u_s2 u_s1 u_b e_b dP N (swapState s0) =
      swapParams (collideParamsOf R M u_s1 u_s2 u_b e_b dP N s0) := by
  unfold collideParamsOf swapParams swapState LoopState.v_ijy
  dsimp only
  cases dP with
  | none =>
    simp only [CollideParams.mk.injEq]
    refine ⟨trivial, trivial, trivial, trivial, trivial, trivial, ?_⟩
    rw [show -s0.v_iy - -s0.v_jy = s0.v_jy - s0.v_iy from by ring]
  | some dp => rfl

/-- Transforming a swapped final state back through the swapped frame
gives the swapped result quadruple. -/
lemma collideOutput_swap (r_i r_j : Vec3) (s : LoopState) :
    collideOutput r_j r_i (swapState s) =
      swapResult (collideOutput r_i r_j s) := by
  have hD : Vec3.dot (Vec3.sub r_i r_j) (Vec3.sub r_i r_j) =
      Vec3.dot (Vec3.sub r_j r_i) (Vec3.sub r_j r_i) := by
    unfold Vec3.dot Vec3.sub
    ring
  unfold collideOutput swapResult swapState x_loc_of y_loc_of
  rw [hD]
  dsimp only
  unfold Vec3.add3 Vec3.smul Vec3.cross Vec3.div Vec3.sub z_loc
  dsimp only
  simp only [Prod.mk.injEq]
  refine ⟨⟨?_, ?_, ?_⟩, ⟨?_, ?_, ?_⟩, ⟨?_, ?_, ?_⟩, ?_, ?_, ?_⟩ <;> ring

/-- C8: the ball-ball collision resolution is symmetric under exchange of
the two balls: calling `collide_balls` with the two balls' kinematic
inputs (and their per-ball cloth-friction coefficients) swapped and then
swapping the two returned (velocity, angular velocity) pairs back
reproduces exactly the result of the original call, fuel for fuel. -/
theorem collide_balls_swap_symmetric (r_i v_i w_i r_j v_j w_j : Vec3)
    (R M u_s1 u_s2 u_b e_b : ℝ) (dP : Option ℝ) (N : ℝ) (fuel : ℕ) :
    collide_balls r_j v_j w_j r_i v_i w_i R M u_s2 u_s1 u_b e_b dP N fuel =
      Option.map swapResult
        (collide_balls r_i v_i w_i r_j v_j w_j R M u_s1 u_s2 u_b e_b dP N
          fuel) := by
  unfold collide_balls
  rw [collideInitial_swap, collideParamsOf_swap, loopFuel_swap]
  cases hres : loopFuel (collideParamsOf R M u_s1 u_s2 u_b e_b dP N
      (collideInitial r_i v_i w_i r_j v_j w_j)) fuel
      (collideInitial r_i v_i w_i r_j v_j w_j) with
  | none => rfl
  | some sf =>
    dsimp only [Option.map]
    rw [collideOutput_swap]

/-! ### The `test_case1` quartic row (C4) -/

/-- The test quartic of `test_case1` is strictly decreasing on `[0, 0.05]`. -/
lemma case1_strictAntiOn :
    StrictAntiOn (fun x : ℝ => quarticEval 0.9604000000000001
      (-22.342459712735774) 131.1430067191817 (-13.968966072700297)
      0.37215503307938314 x) (Set.Icc 0 (1/20)) := by
  have hder : ∀ x : ℝ, HasDerivAt (fun x : ℝ => quarticEval 0.9604000000000001
      (-22.342459712735774) 131.1430067191817 (-13.968966072700297)
      0.37215503307938314 x)
      (4 * 0.9604000000000001 * x ^ 3 + 3 * (-22.342459712735774) * x ^ 2 +
        2 * 131.1430067191817 * x + (-13.968966072700297)) x := by
    intro x
    have h :=
      (((hasDerivAt_pow 4 x).const_mul (0.9604000000000001 : ℝ)).add
        ((hasDerivAt_pow 3 x).const_mul (-22.342459712735774 : ℝ))).add
        ((((hasDerivAt_pow 2 x).const_mul (131.1430067191817 : ℝ)).add
          ((hasDerivAt_id x).const_mul (-13.968966072700297 : ℝ))).add
          (hasDerivAt_const x (0.37215503307938314 : ℝ)))
    have heq : (fun x : ℝ => quarticEval 0.9604000000000001
        (-22.342459712735774) 131.1430067191817 (-13.968966072700297)
        0.37215503307938314 x) =
        fun x : ℝ => 0.9604000000000001 * x ^ 4 +
          (-22.342459712735774) * x ^ 3 +
          (131.1430067191817 * x ^ 2 + (-13.968966072700297) * id x +
            0.37215503307938314) := by
      funext y
      unfold quarticEval
      simp only [id]
      ring
    rw [heq]
    convert h using 1
    push_cast
    ring
  apply strictAntiOn_of_deriv_neg (convex_Icc 0 (1/20))
  · refine Continuous.continuousOn ?_
    unfold quarticEval
    continuity
  · intro x hx
    rw [interior_Icc] at hx
    obtain ⟨hx0, hxL⟩ := hx
    rw [(hder x).deriv]
    have h3 : x ^ 3 ≤ (1/20 : ℝ) ^ 3 :=
      pow_le_pow_left (le_of_lt hx0) (le_of_lt hxL) 3
    have h2 : 3 * (-22.342459712735774 : ℝ) * x ^ 2 ≤ 0 := by
      have := sq_nonneg x
      nlinarith
    have h1 : 2 * (131.1430067191817 : ℝ) * x ≤ 2 * 131.1430067191817 * (1/20) := by
      nlinarith
    nlinarith [h3, h2, h1]

/-- C4: for the quartic coefficient row of `test_case1`, the minimum
non-negative real root equals `0.048943195217641386` to within `1e-4`
relative tolerance, under both the Numeric and the Hybrid solver
strategies (which therefore agree on this input to that tolerance). -/
theorem quartic_case1_min_root_within_tolerance :
    ∃ r : ℝ,
      numericMinRoot 0.9604000000000001 (-22.342459712735774)
        131.1430067191817 (-13.968966072700297) 0.37215503307938314 r ∧
      hybridMinRoot 0.9604000000000001 (-22.342459712735774)
        131.1430067191817 (-13.968966072700297) 0.37215503307938314 r ∧
      |r - 0.048943195217641386| ≤ 1e-4 * 0.048943195217641386 := by
  set f := fun x : ℝ => quarticEval 0.9604000000000001
    (-22.342459712735774) 131.1430067191817 (-13.968966072700297)
    0.37215503307938314 x with hf
  have hcont : ContinuousOn f (Set.Icc (4894/100000 : ℝ) (48945/1000000)) := by
    refine Continuous.continuousOn ?_
    rw [hf]
    unfold quarticEval
    continuity
  have hlo : 0 < f (4894/100000) := by
    rw [hf]
    unfold quarticEval
    norm_num
  have hhi : f (48945/1000000) < 0 := by
    rw [hf]
    unfold quarticEval
    norm_num
  have hsub := intermediate_value_Icc' (by norm_num :
      (4894/100000 : ℝ) ≤ 48945/1000000) hcont
  have hmem : (0 : ℝ) ∈ Set.Icc (f (48945/1000000)) (f (4894/100000)) :=
    ⟨le_of_lt hhi, le_of_lt hlo⟩
  obtain ⟨r, hrmem, hfr⟩ := hsub hmem
  obtain ⟨hrlo, hrhi⟩ := hrmem
  have hrL : r ∈ Set.Icc (0 : ℝ) (1/20) := by
    constructor <;> [linarith; linarith]
  have hmin : ∀ s, 0 ≤ s → f s = 0 → r ≤ s := by
    intro s hs0 hfs
    by_contra hcon
    push_neg at hcon
    have hsL : s ∈ Set.Icc (0 : ℝ) (1/20) := by
      constructor
      · exact hs0
      · linarith [hrL.2]
    have hlt : f r < f s := case1_strictAntiOn hsL hrL hcon
    rw [hfr, hfs] at hlt
    exact absurd hlt (lt_irrefl 0)
  refine ⟨r, ⟨by linarith, hfr, hmin⟩, ⟨by linarith, hfr, hmin⟩, ?_⟩
  rw [abs_le]
  constructor <;> [linarith; linarith]
